import Mathlib

/-!
# Sell-side offer reconciliation (`alfonso/strategy/sideStrategy/sellSide.go`)

A shallow embedding of `SellSideStrategy` and of its methods `PruneExistingOffers`,
`PreUpdate`, `UpdateWithOps`, `PostUpdate` and `updateSellLevel`.

Modelling conventions.

* The code computes on Go `float64` values.  The definitions are written over a type
  `F` that carries the operations the code uses (`GoFloat F`: `+`, `-`, `*`, `/`, `<`
  and `math.Min`), about which only the irreflexivity of `<` is assumed; what is
  proved for every such `F` holds for `float64` whatever its roundings and special
  values are.
* `F64` is IEEE 754 binary64 with rounding to nearest, ties to even: a finite value is
  the rational it denotes, every operation rounds its exact result, overflow gives an
  infinity and invalid operations give `NaN`.  The two zeros `+0` and `-0`, which
  compare equal, are one value, which divides as `+0` does; the two differ only as
  divisors, and the properties of the code proved on `F64` that involve the division
  assume a non-zero divisor.
* A Go `error` is an `Option Error` (`none` is `nil`); a Go multiple return is a
  structure or a pair with one component per returned value.
* The operations built by `txButler` are data (`MutationIntent`); nothing is sent.
-/

set_option autoImplicit false

namespace SideStrategy

/-- A Go `error` value that is not `nil`. -/
abbrev Error := String

/-- The `float64` operations of the code: the four arithmetic operations, the
comparison `<` (`a > b` is `b < a`) and `math.Min`.  No value is strictly below
itself. -/
class GoFloat (F : Type) extends Add F, Sub F, Mul F, Div F, LT F where
  Min : F → F → F
  decLt : ∀ a b : F, Decidable (a < b)
  lt_irrefl : ∀ a : F, ¬ a < a

instance GoFloat.instDecidableLt {F : Type} [GoFloat F] (a b : F) : Decidable (a < b) :=
  GoFloat.decLt a b

/-- One rung of the ladder (`level.Level`), read through `TargetPrice()` and
`TargetAmount()`. -/
structure Level (F : Type) where
  targetPrice : F
  targetAmount : F
deriving DecidableEq, Repr

/-- A resting order (`horizon.Offer`): its exchange id, its price as read by
`kelp.GetPrice` and its amount as read by `kelp.AmountStringAsFloat`. -/
structure Offer (F : Type) where
  ID : Nat
  price : F
  amount : F
deriving DecidableEq, Repr

/-- Modelled from the spec: the operations `txButler.CreateSellOffer`,
`txButler.ModifySellOffer` and `txButler.DeleteOffer` build (the `txButler` code is
not part of the sources); the spec's tagged variant
`Create{price, amount} | Modify{target, price, amount} | Delete{target}`. -/
inductive MutationIntent (F : Type) where
  | Create (price amount : F)
  | Modify (target : Offer F) (price amount : F)
  | Delete (target : Offer F)
deriving DecidableEq, Repr

/-- The price an operation carries (`op.MO.Price`).  `updateSellLevel` only builds
`Create` and `Modify`, so `UpdateWithOps` never reads the `Delete` case. -/
def MutationIntent.Price {F : Type} : MutationIntent F → F
  | .Create price _ => price
  | .Modify _ price _ => price
  | .Delete target => target.price

/-- The amount of a `Create` or of a `Modify` (`op.MO.Amount`); a `Delete` carries
none. -/
def MutationIntent.Amount {F : Type} : MutationIntent F → Option F
  | .Create _ amount => some amount
  | .Modify _ _ amount => some amount
  | .Delete _ => none

/-- The price feed (`priceFeed.FeedPair`): `GetCenterPrice()` returns a price and an
error. -/
structure FeedPair (F : Type) where
  GetCenterPrice : Unit → F × Option Error

/-- The level provider (`level.Provider`): `GetLevels(centerPrice)` returns a ladder
and an error. -/
structure Provider (F : Type) where
  GetLevels : F → List (Level F) × Option Error

/-- The receiver `SellSideStrategy`.  `txButler`, `assetBase` and `assetQuote` only
parametrise the operations sent to the network and are left out. -/
structure SellSideStrategy (F : Type) where
  pf : FeedPair F
  levelsProvider : Provider F
  priceTolerance : F
  amountTolerance : F
  divideAmountByPrice : Bool
  centerPrice : F
  currentLevels : List (Level F)
  maxAssetBase : F
  maxAssetQuote : F

variable {F : Type}

/-! ## `PruneExistingOffers` -/

/-- The loop `for i := ...; i < len(offers); i++` of `PruneExistingOffers`, entered at
index `i` with the operations collected so far. -/
def pruneLoop (offers : List (Offer F)) (i : Nat) (pruneOps : List (MutationIntent F)) :
    List (MutationIntent F) :=
  if h : i < offers.length then
    pruneLoop offers (i + 1) (pruneOps ++ [MutationIntent.Delete offers[i]])
  else pruneOps
termination_by offers.length - i

/-- `PruneExistingOffers`: the delete operations and the trimmed offers. -/
def PruneExistingOffers (s : SellSideStrategy F) (offers : List (Offer F)) :
    List (MutationIntent F) × List (Offer F) :=
  let pruneOps := pruneLoop offers s.currentLevels.length []
  let offers :=
    if offers.length > s.currentLevels.length then offers.take s.currentLevels.length
    else offers
  (pruneOps, offers)

/-! ## `PreUpdate` -/

/-- A call made to one of the two collaborators; `PreUpdate` reports the calls it
makes, in order. -/
inductive Call (F : Type) where
  | GetCenterPrice
  | GetLevels (centerPrice : F)
deriving DecidableEq, Repr

/-- What `PreUpdate` leaves behind: the receiver after the call, the returned error
and the collaborator calls made. -/
structure PreUpdateResult (F : Type) where
  s : SellSideStrategy F
  e : Option Error
  calls : List (Call F)

/-- `PreUpdate`. -/
def PreUpdate (s : SellSideStrategy F) (maxAssetBase maxAssetQuote : F) :
    PreUpdateResult F :=
  let s := { s with maxAssetBase := maxAssetBase, maxAssetQuote := maxAssetQuote }
  let r := s.pf.GetCenterPrice ()
  let s := { s with centerPrice := r.1 }
  match r.2 with
  | some e => ⟨s, some e, [Call.GetCenterPrice]⟩
  | none =>
    let l := s.levelsProvider.GetLevels s.centerPrice
    let calls := [Call.GetCenterPrice, Call.GetLevels s.centerPrice]
    let s := { s with currentLevels := l.1 }
    match l.2 with
    | some e => ⟨s, some e, calls⟩
    | none => ⟨s, none, calls⟩

/-! ## `updateSellLevel` and `UpdateWithOps` -/

/-- `updateSellLevel`: the decision for ladder position `index`; `none` is Go's `nil`.
The index is within the ladder, as `s.currentLevels[index]` requires. -/
def updateSellLevel [GoFloat F] (s : SellSideStrategy F) (offers : List (Offer F))
    (index : Nat) (h : index < s.currentLevels.length) : Option (MutationIntent F) :=
  let targetPrice := s.currentLevels[index].targetPrice
  let targetAmount := s.currentLevels[index].targetAmount
  let targetAmount := if s.divideAmountByPrice then targetAmount / targetPrice else targetAmount
  let targetAmount := GoFloat.Min targetAmount s.maxAssetBase
  if hlen : offers.length ≤ index then
    -- no existing offer at this index
    some (MutationIntent.Create targetPrice targetAmount)
  else
    let highestPrice := targetPrice + targetPrice * s.priceTolerance
    let lowestPrice := targetPrice - targetPrice * s.priceTolerance
    let minAmount := targetAmount - targetAmount * s.amountTolerance
    let maxAmount := targetAmount + targetAmount * s.amountTolerance
    let curPrice := (offers[index]).price
    let curAmount := (offers[index]).amount
    let priceTrigger := decide (curPrice > highestPrice) || decide (curPrice < lowestPrice)
    let amountTrigger := decide (curAmount < minAmount) || decide (curAmount > maxAmount)
    if priceTrigger || amountTrigger then
      some (MutationIntent.Modify offers[index] targetPrice targetAmount)
    else none

/-- The three values `UpdateWithOps` returns.  A `number.Number` is the value it
denotes, a rational. -/
structure UpdateResult (F : Type) where
  ops : List (MutationIntent F)
  newTopOffer : Option ℚ
  e : Option Error
deriving DecidableEq, Repr

/-- The update of `newTopOffer` in `UpdateWithOps`: the parsed price replaces the
current top when there is none yet or when it is strictly lower. -/
def minOffer (newTopOffer : Option ℚ) (offer : ℚ) : Option ℚ :=
  match newTopOffer with
  | none => some offer
  | some top => if offer < top then some offer else some top

/-- The loop `for i := len(s.currentLevels) - 1; i >= 0; i--` of `UpdateWithOps` with
`n` positions left to visit: the next index is `n - 1`.  `FromString p` stands for
`number.FromString(op.MO.Price.String(), 7)` on an operation of price `p` (the
`number` package is not part of the sources). -/
def updateLoop [GoFloat F] (FromString : F → Except Error ℚ) (s : SellSideStrategy F)
    (offers : List (Offer F)) :
    (n : Nat) → n ≤ s.currentLevels.length → List (MutationIntent F) → Option ℚ →
      UpdateResult F
  | 0, _, ops, newTopOffer => ⟨ops, newTopOffer, none⟩
  | i + 1, h, ops, newTopOffer =>
    match updateSellLevel s offers i (by omega) with
    | none => updateLoop FromString s offers i (by omega) ops newTopOffer
    | some op =>
      match FromString op.Price with
      | .error e => ⟨[], none, some e⟩
      | .ok offer =>
        updateLoop FromString s offers i (by omega) (ops ++ [op]) (minOffer newTopOffer offer)

/-- `UpdateWithOps`. -/
def UpdateWithOps [GoFloat F] (FromString : F → Except Error ℚ) (s : SellSideStrategy F)
    (offers : List (Offer F)) : UpdateResult F :=
  updateLoop FromString s offers s.currentLevels.length (le_refl _) [] none

/-- The decision of `updateSellLevel` at position `i`, and `none` past the ladder,
where `UpdateWithOps` takes no decision. -/
def levelDecision [GoFloat F] (s : SellSideStrategy F) (offers : List (Offer F)) (i : Nat) :
    Option (MutationIntent F) :=
  if h : i < s.currentLevels.length then updateSellLevel s offers i h else none

/-- The decisions that are not `nil` at positions `hi - 1, ..., lo`, deepest first. -/
def decisions [GoFloat F] (s : SellSideStrategy F) (offers : List (Offer F)) (lo hi : Nat) :
    List (MutationIntent F) :=
  (List.range' lo (hi - lo)).reverse.filterMap (levelDecision s offers)

/-! ## `PostUpdate` -/

/-- `PostUpdate`: the receiver after the call and the returned error. -/
def PostUpdate (s : SellSideStrategy F) : SellSideStrategy F × Option Error :=
  (s, none)

/-! ## The decision as a function of one position -/

/-- The per-level decision written as a function of the data of one position only:
the level, the live offer at that position (`none` when there is none), the base cap,
the two tolerances and the division flag.  It is compared with `updateSellLevel`
below. -/
def positionalDecision [GoFloat F] (lvl : Level F) (live : Option (Offer F))
    (maxBase priceTolerance amountTolerance : F) (divide : Bool) :
    Option (MutationIntent F) :=
  let ta := GoFloat.Min
    (if divide then lvl.targetAmount / lvl.targetPrice else lvl.targetAmount) maxBase
  match live with
  | none => some (MutationIntent.Create lvl.targetPrice ta)
  | some o =>
    if (o.price > lvl.targetPrice + lvl.targetPrice * priceTolerance ∨
        o.price < lvl.targetPrice - lvl.targetPrice * priceTolerance) ∨
       (o.amount < ta - ta * amountTolerance ∨ o.amount > ta + ta * amountTolerance)
    then some (MutationIntent.Modify o lvl.targetPrice ta) else none

/-! ## IEEE 754 binary64 -/

/-- The integer nearest to `y`, the even one of the two when `y` is halfway. -/
def roundNE (y : ℚ) : ℤ :=
  if y - ⌊y⌋ < 1 / 2 then ⌊y⌋
  else if 1 / 2 < y - ⌊y⌋ then ⌊y⌋ + 1
  else if ⌊y⌋ % 2 = 0 then ⌊y⌋ else ⌊y⌋ + 1

/-- The exponent of the unit in the last place of the binary64 values around `x`: 52
below the binary exponent of `x`, and `-1074` in the subnormal range. -/
def ulpExp (x : ℚ) : ℤ := max (Int.log 2 |x| - 52) (-1074)

/-- A binary64 value: a finite value (the rational it denotes), an infinity or `NaN`. -/
inductive F64 where
  | fin (q : ℚ)
  | pinf
  | ninf
  | nan
deriving DecidableEq, Repr

namespace F64

/-- Rounding of an exact result to binary64: to the nearest multiple of the unit in the
last place, ties to even, and to an infinity from `2 ^ 1024` on. -/
def round (x : ℚ) : F64 :=
  let r : ℚ := roundNE (x / 2 ^ ulpExp x) * 2 ^ ulpExp x
  if 2 ^ (1024 : ℤ) ≤ r then pinf
  else if r ≤ -2 ^ (1024 : ℤ) then ninf
  else fin r

/-- The binary64 value of a decimal constant. -/
def ofRat (q : ℚ) : F64 := round q

/-- The rational a finite value denotes (`0` for the other values). -/
def toRat : F64 → ℚ
  | fin q => q
  | _ => 0

/-- A finite value is a binary64 value when rounding leaves it as it is. -/
def IsDouble : F64 → Prop
  | fin q => round q = fin q
  | _ => True

/-- Unary minus. -/
def neg : F64 → F64
  | fin q => fin (-q)
  | pinf => ninf
  | ninf => pinf
  | nan => nan

/-- Addition. -/
def add : F64 → F64 → F64
  | fin a, fin b => round (a + b)
  | fin _, pinf => pinf
  | fin _, ninf => ninf
  | pinf, fin _ => pinf
  | ninf, fin _ => ninf
  | pinf, pinf => pinf
  | ninf, ninf => ninf
  | _, _ => nan

/-- Subtraction. -/
def sub (x y : F64) : F64 := add x (neg y)

/-- Multiplication. -/
def mul : F64 → F64 → F64
  | fin a, fin b => round (a * b)
  | fin a, pinf => if a = 0 then nan else if 0 < a then pinf else ninf
  | fin a, ninf => if a = 0 then nan else if 0 < a then ninf else pinf
  | pinf, fin b => if b = 0 then nan else if 0 < b then pinf else ninf
  | ninf, fin b => if b = 0 then nan else if 0 < b then ninf else pinf
  | pinf, pinf => pinf
  | ninf, ninf => pinf
  | pinf, ninf => ninf
  | ninf, pinf => ninf
  | _, _ => nan

/-- Division; a zero divisor is `+0`. -/
def div : F64 → F64 → F64
  | fin a, fin b =>
    if b = 0 then (if a = 0 then nan else if 0 < a then pinf else ninf)
    else round (a / b)
  | fin _, pinf => fin 0
  | fin _, ninf => fin 0
  | pinf, fin b => if b < 0 then ninf else pinf
  | ninf, fin b => if b < 0 then pinf else ninf
  | _, _ => nan

/-- The comparison `<`: false as soon as one side is `NaN`. -/
def lt : F64 → F64 → Bool
  | fin a, fin b => decide (a < b)
  | fin _, pinf => true
  | ninf, fin _ => true
  | ninf, pinf => true
  | _, _ => false

/-- The comparison `<=`: false as soon as one side is `NaN`. -/
def le : F64 → F64 → Bool
  | fin a, fin b => decide (a ≤ b)
  | fin _, pinf => true
  | ninf, fin _ => true
  | ninf, pinf => true
  | pinf, pinf => true
  | ninf, ninf => true
  | _, _ => false

/-- Go's `math.Min`: `-Inf` if one argument is `-Inf`, else `NaN` if one is `NaN`,
else the smaller one. -/
def min (x y : F64) : F64 :=
  if x = ninf ∨ y = ninf then ninf
  else if x = nan ∨ y = nan then nan
  else if lt x y then x else y

end F64

instance F64.instGoFloat : GoFloat F64 where
  add := F64.add
  sub := F64.sub
  mul := F64.mul
  div := F64.div
  lt := fun a b => F64.lt a b = true
  Min := F64.min
  decLt := fun a b => inferInstanceAs (Decidable (F64.lt a b = true))
  lt_irrefl := fun a => by cases a <;> simp [F64.lt]

instance F64.instLE : LE F64 := ⟨fun a b => F64.le a b = true⟩

instance F64.instDecidableLe (a b : F64) : Decidable (a ≤ b) :=
  inferInstanceAs (Decidable (F64.le a b = true))

/-- `MakeSellSideStrategy`: the cycle fields start at Go's zero values. -/
def MakeSellSideStrategy (pf : FeedPair F64) (levelsProvider : Provider F64)
    (priceTolerance amountTolerance : F64) (divideAmountByPrice : Bool) :
    SellSideStrategy F64 :=
  { pf := pf, levelsProvider := levelsProvider, priceTolerance := priceTolerance,
    amountTolerance := amountTolerance, divideAmountByPrice := divideAmountByPrice,
    centerPrice := F64.fin 0, currentLevels := [], maxAssetBase := F64.fin 0,
    maxAssetQuote := F64.fin 0 }

/-! ## Concrete instances -/

/-- A price parse that succeeds on every price and returns the value it denotes. -/
def exactParse : F64 → Except Error ℚ := fun p => .ok p.toRat

/-- A price parse that fails on the price `bad` and is exact on every other price. -/
def failAt (bad : F64) : F64 → Except Error ℚ :=
  fun p => if p = bad then .error "price not representable" else .ok p.toRat

/-- The binary64 value of `1.02`. -/
def p1_02 : F64 := F64.ofRat 1.02

/-- The binary64 value of `1.05`. -/
def p1_05 : F64 := F64.ofRat 1.05

/-- The binary64 value of `1.021`. -/
def p1_021 : F64 := F64.ofRat 1.021

/-- The binary64 value of `0.01`. -/
def p0_01 : F64 := F64.ofRat 0.01

/-- The binary64 value of `1.1`. -/
def p1_1 : F64 := F64.ofRat 1.1

/-- The binary64 value of `1.089`. -/
def p1_089 : F64 := F64.ofRat 1.089

/-- The binary64 value of `5.85`. -/
def p5_85 : F64 := F64.ofRat 5.85

/-- The binary64 value of `0.1`. -/
def p0_1 : F64 := F64.ofRat 0.1

/-- The binary64 value of `0.68`. -/
def p0_68 : F64 := F64.ofRat 0.68

/-- The binary64 value of `0.17`. -/
def p0_17 : F64 := F64.ofRat 0.17

/-- Modelled from the spec: a parse of a price at 7 fractional digits
(`number.FromString(..., 7)`, which is not part of the sources), returning the value
rounded to 7 decimals; it succeeds on every finite price. -/
def parse7 : F64 → Except Error ℚ
  | F64.fin q => .ok ((⌊q * 10 ^ 7 + 1 / 2⌋ : ℤ) / 10 ^ 7)
  | _ => .error "price not representable"

/-- The sum of the amounts of the `Create` and `Modify` operations of a list, as a
rational (the amounts that are not finite count for `0`). -/
def totalAmount (ops : List (MutationIntent F64)) : ℚ :=
  (ops.map (fun op => match op.Amount with
    | some a => a.toRat
    | none => 0)).sum

/-- A reconciler holding the ladder `[(1.02, 100), (1.05, 150)]` with
`maxAssetBase = 1000`, both tolerances `0.01` and the division by the price off; its
feed and its level provider succeed. -/
def scenario : SellSideStrategy F64 :=
  { MakeSellSideStrategy ⟨fun _ => (F64.fin 1, none)⟩
      ⟨fun _ => ([⟨p1_02, F64.fin 100⟩, ⟨p1_05, F64.fin 150⟩], none)⟩ p0_01 p0_01 false with
    currentLevels := [⟨p1_02, F64.fin 100⟩, ⟨p1_05, F64.fin 150⟩],
    maxAssetBase := F64.fin 1000 }

/-- The live offers `[(1.021, 99)]`. -/
def liveOne : List (Offer F64) := [⟨1, p1_021, F64.fin 99⟩]

/-- The live offers `[(1.10, 100), (1.05, 150), (2.00, 5)]`. -/
def liveThree : List (Offer F64) :=
  [⟨1, p1_1, F64.fin 100⟩, ⟨2, p1_05, F64.fin 150⟩, ⟨3, F64.fin 2, F64.fin 5⟩]

/-- The scenario reconciler with a price feed that fails. -/
def feedDown : SellSideStrategy F64 :=
  { scenario with pf := ⟨fun _ => (F64.fin 0, some "feed unavailable")⟩ }

/-- The scenario reconciler with a level provider that fails. -/
def levelsDown : SellSideStrategy F64 :=
  { scenario with levelsProvider := ⟨fun _ => ([], some "levels unavailable")⟩ }

/-- The scenario reconciler with the base cap lowered to 100. -/
def cappedScenario : SellSideStrategy F64 :=
  { scenario with maxAssetBase := F64.fin 100 }

/-- The scenario reconciler with another quote cap and another cached center price. -/
def otherQuote : SellSideStrategy F64 :=
  { scenario with maxAssetQuote := F64.fin 77, centerPrice := F64.fin 3 }

/-- Live offers that equal the scenario ladder. -/
def liveLadder : List (Offer F64) := [⟨1, p1_02, F64.fin 100⟩, ⟨2, p1_05, F64.fin 150⟩]

/-- A reconciler with the one level `(6.5, 100)`, the price tolerance `0.1` and the
amount tolerance `0.01`. -/
def wideBand : SellSideStrategy F64 :=
  { scenario with currentLevels := [⟨F64.fin (13 / 2), F64.fin 100⟩], priceTolerance := p0_1 }

/-- A reconciler with the one level `(1.1, 100)` and both tolerances `0.01`. -/
def narrowBand : SellSideStrategy F64 :=
  { scenario with currentLevels := [⟨p1_1, F64.fin 100⟩] }

/-- A reconciler with the one level `(0.68, 100)`, the price tolerance `0.75` and the
amount tolerance `0.01`. -/
def looseBand : SellSideStrategy F64 :=
  { scenario with currentLevels := [⟨p0_68, F64.fin 100⟩],
                  priceTolerance := F64.fin (3 / 4) }

/-! ## Lemmas -/

theorem pruneLoop_eq (offers : List (Offer F)) (i : Nat) (acc : List (MutationIntent F)) :
    pruneLoop offers i acc = acc ++ (offers.drop i).map MutationIntent.Delete := by
  generalize h : offers.length - i = n
  induction n generalizing i acc with
  | zero =>
    have hi : ¬ i < offers.length := by omega
    rw [pruneLoop, dif_neg hi, List.drop_of_length_le (by omega)]
    simp
  | succ n ih =>
    have hi : i < offers.length := by omega
    rw [pruneLoop, dif_pos hi, ih (i + 1) _ (by omega), List.drop_eq_getElem_cons hi,
      List.map_cons, List.append_assoc]
    rfl

variable [GoFloat F]

theorem levelDecision_eq (s : SellSideStrategy F) (offers : List (Offer F)) (i : Nat)
    (h : i < s.currentLevels.length) :
    levelDecision s offers i = updateSellLevel s offers i h := by
  simp [levelDecision, h]

theorem decisions_succ (s : SellSideStrategy F) (offers : List (Offer F)) (n : Nat) :
    decisions s offers 0 (n + 1) =
      (levelDecision s offers n).toList ++ decisions s offers 0 n := by
  unfold decisions
  rw [Nat.sub_zero, Nat.sub_zero, List.range'_1_concat, List.reverse_append]
  cases hd : levelDecision s offers n <;> simp [List.filterMap_cons, hd]

theorem decisions_split (s : SellSideStrategy F) (offers : List (Offer F)) (i n : Nat)
    (h : i < n) :
    decisions s offers 0 n =
      decisions s offers (i + 1) n ++
        ((levelDecision s offers i).toList ++ decisions s offers 0 i) := by
  unfold decisions
  have hr : List.range' 0 (n - 0) =
      List.range' 0 (i - 0) ++ (i :: List.range' (i + 1) (n - (i + 1))) := by
    rw [← List.range'_succ, Nat.sub_zero, Nat.sub_zero]
    have h1 : List.range' i (n - (i + 1) + 1) = List.range' (0 + i) (n - i) := by
      congr 1 <;> omega
    rw [h1, List.range'_append_1]
    congr 1; omega
  rw [hr, List.reverse_append, List.reverse_cons, List.filterMap_append,
    List.filterMap_append]
  cases hd : levelDecision s offers i <;> simp [List.filterMap_cons, hd]

theorem mem_decisions (s : SellSideStrategy F) (offers : List (Offer F)) (n : Nat)
    (op : MutationIntent F) :
    op ∈ decisions s offers 0 n ↔ ∃ i, i < n ∧ levelDecision s offers i = some op := by
  simp [decisions, List.mem_filterMap]

theorem length_decisions_le (s : SellSideStrategy F) (offers : List (Offer F)) (n : Nat) :
    (decisions s offers 0 n).length ≤ n := by
  unfold decisions
  refine (List.length_filterMap_le _ _).trans ?_
  simp

theorem minOffer_spec (top : Option ℚ) (p : ℚ) :
    ∃ m, minOffer top p = some m ∧ m ≤ p ∧ (m = p ∨ top = some m) ∧
      ∀ t0, top = some t0 → m ≤ t0 := by
  cases top with
  | none => exact ⟨p, rfl, le_refl _, Or.inl rfl, fun _ h => by cases h⟩
  | some t =>
    by_cases hlt : p < t
    · refine ⟨p, by simp [minOffer, hlt], le_refl _, Or.inl rfl, ?_⟩
      intro t0 h0
      cases h0
      exact le_of_lt hlt
    · refine ⟨t, by simp [minOffer, hlt], le_of_not_lt hlt, Or.inr rfl, ?_⟩
      intro t0 h0
      cases h0
      exact le_refl _

theorem updateLoop_succ_none (FromString : F → Except Error ℚ) (s : SellSideStrategy F)
    (offers : List (Offer F)) (i : Nat) (h : i + 1 ≤ s.currentLevels.length)
    (ops : List (MutationIntent F)) (top : Option ℚ)
    (hd : levelDecision s offers i = none) :
    updateLoop FromString s offers (i + 1) h ops top =
      updateLoop FromString s offers i (by omega) ops top := by
  rw [levelDecision_eq s offers i (by omega)] at hd
  rw [updateLoop]
  split
  · rfl
  · rename_i op hop
    rw [hd] at hop; cases hop

theorem updateLoop_succ_error (FromString : F → Except Error ℚ) (s : SellSideStrategy F)
    (offers : List (Offer F)) (i : Nat) (h : i + 1 ≤ s.currentLevels.length)
    (ops : List (MutationIntent F)) (top : Option ℚ) (op : MutationIntent F) (e : Error)
    (hd : levelDecision s offers i = some op) (hp : FromString op.Price = .error e) :
    updateLoop FromString s offers (i + 1) h ops top = ⟨[], none, some e⟩ := by
  rw [levelDecision_eq s offers i (by omega)] at hd
  rw [updateLoop]
  split
  · rename_i hop
    rw [hd] at hop; cases hop
  · rename_i op1 hop
    rw [hd] at hop; cases hop
    simp [hp]

theorem updateLoop_succ_ok (FromString : F → Except Error ℚ) (s : SellSideStrategy F)
    (offers : List (Offer F)) (i : Nat) (h : i + 1 ≤ s.currentLevels.length)
    (ops : List (MutationIntent F)) (top : Option ℚ) (op : MutationIntent F) (p : ℚ)
    (hd : levelDecision s offers i = some op) (hp : FromString op.Price = .ok p) :
    updateLoop FromString s offers (i + 1) h ops top =
      updateLoop FromString s offers i (by omega) (ops ++ [op]) (minOffer top p) := by
  rw [levelDecision_eq s offers i (by omega)] at hd
  rw [updateLoop]
  split
  · rename_i hop
    rw [hd] at hop; cases hop
  · rename_i op1 hop
    rw [hd] at hop; cases hop
    simp [hp]

/-- A run of the loop that returns no error returns the operations it started with,
followed by the decisions of the positions it visited, all of which parse. -/
theorem updateLoop_ok (FromString : F → Except Error ℚ) (s : SellSideStrategy F)
    (offers : List (Offer F)) :
    ∀ (n : Nat) (h : n ≤ s.currentLevels.length) (ops : List (MutationIntent F))
      (top : Option ℚ),
      (updateLoop FromString s offers n h ops top).e = none →
      (updateLoop FromString s offers n h ops top).ops = ops ++ decisions s offers 0 n ∧
      ∀ op ∈ decisions s offers 0 n, ∃ p, FromString op.Price = .ok p := by
  intro n
  induction n with
  | zero =>
    intro h ops top _
    simp [updateLoop, decisions]
  | succ i ih =>
    intro h ops top he
    rw [decisions_succ]
    cases hd : levelDecision s offers i with
    | none =>
      rw [updateLoop_succ_none FromString s offers i h ops top hd] at he ⊢
      simpa using ih (by omega) ops top he
    | some op =>
      cases hp : FromString op.Price with
      | error e =>
        rw [updateLoop_succ_error FromString s offers i h ops top op e hd hp] at he
        cases he
      | ok p =>
        rw [updateLoop_succ_ok FromString s offers i h ops top op p hd hp] at he ⊢
        obtain ⟨h1, h2⟩ := ih (by omega) (ops ++ [op]) (minOffer top p) he
        refine ⟨by simp [h1], ?_⟩
        intro op1 hmem
        simp only [Option.toList, List.singleton_append, List.mem_cons] at hmem
        rcases hmem with rfl | hmem
        · exact ⟨p, hp⟩
        · exact h2 op1 hmem

/-- The top price of a run of the loop that returns no error: it is absent exactly
when the loop started without one and took no decision; otherwise it is the initial
top or a parsed price of a visited decision, and it is below all of them. -/
theorem updateLoop_top (FromString : F → Except Error ℚ) (s : SellSideStrategy F)
    (offers : List (Offer F)) :
    ∀ (n : Nat) (h : n ≤ s.currentLevels.length) (ops : List (MutationIntent F))
      (top : Option ℚ),
      (updateLoop FromString s offers n h ops top).e = none →
      ((updateLoop FromString s offers n h ops top).newTopOffer = none ↔
        top = none ∧ decisions s offers 0 n = []) ∧
      ∀ t, (updateLoop FromString s offers n h ops top).newTopOffer = some t →
        (top = some t ∨ ∃ op ∈ decisions s offers 0 n, FromString op.Price = .ok t) ∧
        (∀ t0, top = some t0 → t ≤ t0) ∧
        (∀ op ∈ decisions s offers 0 n, ∀ p, FromString op.Price = .ok p → t ≤ p) := by
  intro n
  induction n with
  | zero =>
    intro h ops top _
    refine ⟨by simp [updateLoop, decisions], ?_⟩
    intro t ht
    simp only [updateLoop] at ht
    refine ⟨Or.inl ht, ?_, by simp [decisions]⟩
    intro t0 h0
    rw [ht] at h0; cases h0
    exact le_refl _
  | succ i ih =>
    intro h ops top he
    rw [decisions_succ]
    cases hd : levelDecision s offers i with
    | none =>
      rw [updateLoop_succ_none FromString s offers i h ops top hd] at he ⊢
      simpa using ih (by omega) ops top he
    | some op =>
      cases hp : FromString op.Price with
      | error e =>
        rw [updateLoop_succ_error FromString s offers i h ops top op e hd hp] at he
        cases he
      | ok p =>
        rw [updateLoop_succ_ok FromString s offers i h ops top op p hd hp] at he ⊢
        obtain ⟨m, hm, hmp, hmor, hmtop⟩ := minOffer_spec top p
        obtain ⟨h1, h2⟩ := ih (by omega) (ops ++ [op]) (minOffer top p) he
        constructor
        · constructor
          · intro hnone
            rw [h1, hm] at hnone
            exact absurd hnone.1 (by simp)
          · intro hx
            simp [Option.toList] at hx
        · intro t ht
          obtain ⟨ha, hb, hc⟩ := h2 t ht
          have htm : t ≤ m := hb m hm
          refine ⟨?_, ?_, ?_⟩
          · rcases ha with ha | ⟨op1, hmem, hp1⟩
            · rw [hm] at ha
              cases ha
              rcases hmor with rfl | hmor
              · exact Or.inr ⟨op, by simp [Option.toList], hp⟩
              · exact Or.inl hmor
            · exact Or.inr ⟨op1, by simp [Option.toList, hmem], hp1⟩
          · intro t0 h0
            exact le_trans htm (hmtop t0 h0)
          · intro op1 hmem q hq
            simp only [Option.toList, List.singleton_append, List.mem_cons] at hmem
            rcases hmem with rfl | hmem
            · rw [hp] at hq
              cases hq
              exact le_trans htm hmp
            · exact hc op1 hmem q hq

/-- A run of the loop that returns an error returns nothing else, and the error is
that of the deepest visited position whose decision does not parse. -/
theorem updateLoop_error (FromString : F → Except Error ℚ) (s : SellSideStrategy F)
    (offers : List (Offer F)) :
    ∀ (n : Nat) (h : n ≤ s.currentLevels.length) (ops : List (MutationIntent F))
      (top : Option ℚ) (e : Error),
      (updateLoop FromString s offers n h ops top).e = some e →
      updateLoop FromString s offers n h ops top = ⟨[], none, some e⟩ ∧
      ∃ i, i < n ∧ ∃ op, levelDecision s offers i = some op ∧
        FromString op.Price = .error e ∧
        ∀ j, i < j → j < n → ∀ op1, levelDecision s offers j = some op1 →
          ∃ p, FromString op1.Price = .ok p := by
  intro n
  induction n with
  | zero =>
    intro h ops top e he
    simp [updateLoop] at he
  | succ i ih =>
    intro h ops top e he
    cases hd : levelDecision s offers i with
    | none =>
      rw [updateLoop_succ_none FromString s offers i h ops top hd] at he ⊢
      obtain ⟨h1, k, hk, op, hop, hpe, hdeep⟩ := ih (by omega) ops top e he
      refine ⟨h1, k, by omega, op, hop, hpe, ?_⟩
      intro j hj1 hj2 op1 hop1
      by_cases hji : j = i
      · subst hji
        rw [hd] at hop1; cases hop1
      · exact hdeep j hj1 (by omega) op1 hop1
    | some op =>
      cases hp : FromString op.Price with
      | error e1 =>
        rw [updateLoop_succ_error FromString s offers i h ops top op e1 hd hp] at he ⊢
        cases he
        refine ⟨rfl, i, by omega, op, hd, hp, ?_⟩
        intro j hj1 hj2
        omega
      | ok p =>
        rw [updateLoop_succ_ok FromString s offers i h ops top op p hd hp] at he ⊢
        obtain ⟨h1, k, hk, op2, hop, hpe, hdeep⟩ :=
          ih (by omega) (ops ++ [op]) (minOffer top p) e he
        refine ⟨h1, k, by omega, op2, hop, hpe, ?_⟩
        intro j hj1 hj2 op1 hop1
        by_cases hji : j = i
        · subst hji
          rw [hd] at hop1; cases hop1
          exact ⟨p, hp⟩
        · exact hdeep j hj1 (by omega) op1 hop1

/-- The decision at a position without live offer: a `Create` of the target price and
of the target amount, divided by the price when the division is on, then clamped. -/
theorem levelDecision_create (s : SellSideStrategy F) (offers : List (Offer F)) (i : Nat)
    (lvl : Level F) (hl : s.currentLevels[i]? = some lvl) (hno : offers.length ≤ i) :
    levelDecision s offers i =
      some (MutationIntent.Create lvl.targetPrice
        (GoFloat.Min (if s.divideAmountByPrice then lvl.targetAmount / lvl.targetPrice
              else lvl.targetAmount) s.maxAssetBase)) := by
  obtain ⟨hi, hget⟩ := List.getElem?_eq_some.mp hl
  rw [levelDecision_eq s offers i hi]
  simp [updateSellLevel, hno, hget]

/-- The decision at a position with a live offer: a `Modify` when one of the four
strict comparisons of `updateSellLevel` holds, `nil` otherwise. -/
theorem levelDecision_live (s : SellSideStrategy F) (offers : List (Offer F)) (i : Nat)
    (lvl : Level F) (o : Offer F) (hl : s.currentLevels[i]? = some lvl)
    (ho : offers[i]? = some o) (ta : F)
    (hta : ta = GoFloat.Min (if s.divideAmountByPrice then lvl.targetAmount / lvl.targetPrice
              else lvl.targetAmount) s.maxAssetBase) :
    levelDecision s offers i =
      if (o.price > lvl.targetPrice + lvl.targetPrice * s.priceTolerance ∨
          o.price < lvl.targetPrice - lvl.targetPrice * s.priceTolerance) ∨
         (o.amount < ta - ta * s.amountTolerance ∨ o.amount > ta + ta * s.amountTolerance)
      then some (MutationIntent.Modify o lvl.targetPrice ta) else none := by
  obtain ⟨hi, hget⟩ := List.getElem?_eq_some.mp hl
  obtain ⟨hio, hgeto⟩ := List.getElem?_eq_some.mp ho
  rw [levelDecision_eq s offers i hi]
  subst hta
  simp [updateSellLevel, not_le.mpr hio, hget, hgeto]

theorem levelDecision_not_delete (s : SellSideStrategy F) (offers : List (Offer F)) (i : Nat)
    (op : MutationIntent F) (h : levelDecision s offers i = some op) :
    (∃ price amount, op = MutationIntent.Create price amount) ∨
    (∃ target price amount, op = MutationIntent.Modify target price amount) := by
  by_cases hi : i < s.currentLevels.length
  · have hl : s.currentLevels[i]? = some s.currentLevels[i] := List.getElem?_eq_getElem hi
    by_cases hno : offers.length ≤ i
    · rw [levelDecision_create s offers i _ hl hno] at h
      cases h
      exact Or.inl ⟨_, _, rfl⟩
    · have ho : offers[i]? = some offers[i] := List.getElem?_eq_getElem (by omega)
      obtain ⟨ta, hta⟩ : ∃ ta, ta = GoFloat.Min (if s.divideAmountByPrice then
          s.currentLevels[i].targetAmount / s.currentLevels[i].targetPrice
          else s.currentLevels[i].targetAmount) s.maxAssetBase := ⟨_, rfl⟩
      rw [levelDecision_live s offers i _ _ hl ho ta hta] at h
      split at h
      · cases h
        exact Or.inr ⟨_, _, _, rfl⟩
      · cases h
  · simp [levelDecision, hi] at h

theorem UpdateWithOps_ops (FromString : F → Except Error ℚ) (s : SellSideStrategy F)
    (offers : List (Offer F)) (hok : (UpdateWithOps FromString s offers).e = none) :
    (UpdateWithOps FromString s offers).ops = decisions s offers 0 s.currentLevels.length := by
  have := (updateLoop_ok FromString s offers s.currentLevels.length (le_refl _) [] none hok).1
  simpa [UpdateWithOps] using this

theorem UpdateWithOps_ops_at (FromString : F → Except Error ℚ) (s : SellSideStrategy F)
    (offers : List (Offer F)) (i : Nat) (hi : i < s.currentLevels.length)
    (hok : (UpdateWithOps FromString s offers).e = none) :
    (UpdateWithOps FromString s offers).ops =
      decisions s offers (i + 1) s.currentLevels.length ++
        ((levelDecision s offers i).toList ++ decisions s offers 0 i) := by
  rw [UpdateWithOps_ops FromString s offers hok, decisions_split s offers i _ hi]

/-- `updateSellLevel` at a position of the ladder is `positionalDecision` on the data
of that position. -/
theorem levelDecision_positional (s : SellSideStrategy F) (offers : List (Offer F)) (i : Nat)
    (lvl : Level F) (hl : s.currentLevels[i]? = some lvl) :
    levelDecision s offers i =
      positionalDecision lvl offers[i]? s.maxAssetBase s.priceTolerance s.amountTolerance
        s.divideAmountByPrice := by
  by_cases hno : offers.length ≤ i
  · rw [levelDecision_create s offers i lvl hl hno, List.getElem?_eq_none hno]
    rfl
  · have ho : offers[i]? = some offers[i] := List.getElem?_eq_getElem (by omega)
    rw [levelDecision_live s offers i lvl _ hl ho _ rfl, ho]
    rfl

/-- Two runs of the loop whose decisions agree at the positions visited return the
same result. -/
theorem updateLoop_congr (FromString : F → Except Error ℚ) (s1 s2 : SellSideStrategy F)
    (offers1 offers2 : List (Offer F)) :
    ∀ (n : Nat) (h1 : n ≤ s1.currentLevels.length) (h2 : n ≤ s2.currentLevels.length)
      (ops : List (MutationIntent F)) (top : Option ℚ),
      (∀ i, i < n → levelDecision s1 offers1 i = levelDecision s2 offers2 i) →
      updateLoop FromString s1 offers1 n h1 ops top =
        updateLoop FromString s2 offers2 n h2 ops top := by
  intro n
  induction n with
  | zero =>
    intro h1 h2 ops top _
    simp [updateLoop]
  | succ i ih =>
    intro h1 h2 ops top hsame
    have hi := hsame i (by omega)
    have hrest : ∀ j, j < i → levelDecision s1 offers1 j = levelDecision s2 offers2 j :=
      fun j hj => hsame j (by omega)
    cases hd : levelDecision s1 offers1 i with
    | none =>
      rw [updateLoop_succ_none FromString s1 offers1 i h1 ops top hd,
        updateLoop_succ_none FromString s2 offers2 i h2 ops top (hi ▸ hd)]
      exact ih _ _ ops top hrest
    | some op =>
      cases hp : FromString op.Price with
      | error e =>
        rw [updateLoop_succ_error FromString s1 offers1 i h1 ops top op e hd hp,
          updateLoop_succ_error FromString s2 offers2 i h2 ops top op e (hi ▸ hd) hp]
      | ok p =>
        rw [updateLoop_succ_ok FromString s1 offers1 i h1 ops top op p hd hp,
          updateLoop_succ_ok FromString s2 offers2 i h2 ops top op p (hi ▸ hd) hp]
        exact ih _ _ _ _ hrest

theorem UpdateWithOps_congr (FromString : F → Except Error ℚ) (s1 s2 : SellSideStrategy F)
    (offers1 offers2 : List (Offer F))
    (hlen : s1.currentLevels.length = s2.currentLevels.length)
    (hsame : ∀ i, i < s1.currentLevels.length →
      levelDecision s1 offers1 i = levelDecision s2 offers2 i) :
    UpdateWithOps FromString s1 offers1 = UpdateWithOps FromString s2 offers2 := by
  have key : ∀ (n : Nat) (h2 : n ≤ s2.currentLevels.length),
      n = s2.currentLevels.length →
      updateLoop FromString s2 offers2 n h2 [] none = UpdateWithOps FromString s2 offers2 := by
    intro n h2 hn
    subst hn
    rfl
  unfold UpdateWithOps
  rw [updateLoop_congr FromString s1 s2 offers1 offers2 s1.currentLevels.length (le_refl _)
    (by omega) [] none hsame]
  exact key _ _ hlen

/-- A run of the loop over positions that all decide `nil` changes nothing. -/
theorem updateLoop_all_none (FromString : F → Except Error ℚ) (s : SellSideStrategy F)
    (offers : List (Offer F)) :
    ∀ (n : Nat) (h : n ≤ s.currentLevels.length) (ops : List (MutationIntent F))
      (top : Option ℚ),
      (∀ i, i < n → levelDecision s offers i = none) →
      updateLoop FromString s offers n h ops top = ⟨ops, top, none⟩ := by
  intro n
  induction n with
  | zero =>
    intro h ops top _
    simp [updateLoop]
  | succ i ih =>
    intro h ops top hnone
    rw [updateLoop_succ_none FromString s offers i h ops top (hnone i (by omega))]
    exact ih _ ops top (fun j hj => hnone j (by omega))

/-- Every operation `positionalDecision` builds carries the divided and clamped
target amount. -/
theorem positionalDecision_amount (lvl : Level F) (live : Option (Offer F))
    (maxBase priceTolerance amountTolerance : F) (divide : Bool) (op : MutationIntent F)
    (h : positionalDecision lvl live maxBase priceTolerance amountTolerance divide = some op) :
    op.Amount =
      some (GoFloat.Min
        (if divide then lvl.targetAmount / lvl.targetPrice else lvl.targetAmount)
        maxBase) := by
  unfold positionalDecision at h
  cases live with
  | none =>
    simp only at h
    cases h
    rfl
  | some o =>
    simp only at h
    by_cases hc : (o.price > lvl.targetPrice + lvl.targetPrice * priceTolerance ∨
        o.price < lvl.targetPrice - lvl.targetPrice * priceTolerance) ∨
       (o.amount < GoFloat.Min (if divide then lvl.targetAmount / lvl.targetPrice
            else lvl.targetAmount) maxBase -
          GoFloat.Min (if divide then lvl.targetAmount / lvl.targetPrice
            else lvl.targetAmount) maxBase * amountTolerance ∨
        o.amount > GoFloat.Min (if divide then lvl.targetAmount / lvl.targetPrice
            else lvl.targetAmount) maxBase +
          GoFloat.Min (if divide then lvl.targetAmount / lvl.targetPrice
            else lvl.targetAmount) maxBase * amountTolerance)
    · rw [if_pos hc] at h
      cases h
      rfl
    · rw [if_neg hc] at h
      cases h

theorem levelDecision_amount (s : SellSideStrategy F) (offers : List (Offer F)) (i : Nat)
    (lvl : Level F) (hl : s.currentLevels[i]? = some lvl) (op : MutationIntent F)
    (h : levelDecision s offers i = some op) :
    op.Amount = some (GoFloat.Min
      (if s.divideAmountByPrice then lvl.targetAmount / lvl.targetPrice
       else lvl.targetAmount) s.maxAssetBase) := by
  rw [levelDecision_positional s offers i lvl hl] at h
  exact positionalDecision_amount _ _ _ _ _ _ op h

/-! ## Lemmas on binary64 -/

theorem F64.add_def (a b : F64) : a + b = F64.add a b := rfl

theorem F64.sub_def (a b : F64) : a - b = F64.add a (F64.neg b) := rfl

theorem F64.mul_def (a b : F64) : a * b = F64.mul a b := rfl

theorem F64.div_def (a b : F64) : a / b = F64.div a b := rfl

theorem F64.lt_def (a b : F64) : a < b ↔ F64.lt a b = true := Iff.rfl

theorem F64.le_def (a b : F64) : a ≤ b ↔ F64.le a b = true := Iff.rfl

theorem F64.Min_def (a b : F64) : GoFloat.Min a b = F64.min a b := rfl

theorem roundNE_ge (y : ℚ) (n : ℤ) (h : (n : ℚ) ≤ y) : n ≤ roundNE y := by
  have hf : n ≤ ⌊y⌋ := Int.le_floor.mpr h
  unfold roundNE
  split_ifs <;> omega

theorem roundNE_le (y : ℚ) (n : ℤ) (h : y ≤ (n : ℚ)) : roundNE y ≤ n := by
  have hfy : (⌊y⌋ : ℚ) ≤ y := Int.floor_le y
  have hf : ⌊y⌋ ≤ n := Int.cast_le.mp (le_trans hfy h)
  unfold roundNE
  by_cases h1 : y - ⌊y⌋ < 1 / 2
  · rw [if_pos h1]
    exact hf
  · have hne : ⌊y⌋ ≠ n := by
      intro h2
      rw [h2] at h1
      exact h1 (by linarith)
    have : ⌊y⌋ + 1 ≤ n := by omega
    rw [if_neg h1]
    split_ifs <;> omega

theorem roundNE_eq (y : ℚ) (k : ℤ) (h : |y - k| < 1 / 2) : roundNE y = k := by
  rw [abs_lt] at h
  obtain ⟨h1, h2⟩ := h
  unfold roundNE
  by_cases hk : (k : ℚ) ≤ y
  · have hf : ⌊y⌋ = k := Int.floor_eq_iff.mpr ⟨hk, by linarith⟩
    rw [hf, if_pos h2]
  · have hf : ⌊y⌋ = k - 1 :=
      Int.floor_eq_iff.mpr ⟨by push_cast; linarith, by push_cast; linarith⟩
    rw [hf]
    have h3 : ¬ (y - ((k - 1 : ℤ) : ℚ) < 1 / 2) := by push_cast; linarith
    have h4 : (1 : ℚ) / 2 < y - ((k - 1 : ℤ) : ℚ) := by push_cast; linarith
    rw [if_neg h3, if_pos h4]
    omega

theorem log2_eq (x : ℚ) (e : ℤ) (h1 : (2 : ℚ) ^ e ≤ |x|) (h2 : |x| < (2 : ℚ) ^ (e + 1)) :
    Int.log 2 |x| = e := by
  have hpos : 0 < |x| := lt_of_lt_of_le (by positivity) h1
  have ha : e ≤ Int.log 2 |x| :=
    (Int.zpow_le_iff_le_log (by norm_num) hpos).mp (by exact_mod_cast h1)
  have hb : Int.log 2 |x| < e + 1 :=
    (Int.lt_zpow_iff_log_lt (by norm_num) hpos).mp (by exact_mod_cast h2)
  omega

/-- The rounding of a positive `x` of binary exponent `e` in the normal range: the
multiple `k * 2 ^ (e - 52)` that is less than half a unit away. -/
theorem F64.round_eval (x : ℚ) (e k : ℤ) (r : ℚ) (hpos : 0 < x)
    (h1 : (2 : ℚ) ^ e ≤ x) (h2 : x < (2 : ℚ) ^ (e + 1)) (he : -1022 ≤ e)
    (hk1 : (k : ℚ) - 1 / 2 < x / 2 ^ (e - 52)) (hk2 : x / 2 ^ (e - 52) < (k : ℚ) + 1 / 2)
    (hr : r = (k : ℚ) * 2 ^ (e - 52))
    (hlt : r < 2 ^ (1024 : ℤ)) (hgt : -2 ^ (1024 : ℤ) < r) :
    F64.round x = F64.fin r := by
  have habs : |x| = x := abs_of_pos hpos
  have hu : ulpExp x = e - 52 := by
    unfold ulpExp
    rw [log2_eq x e (by rw [habs]; exact h1) (by rw [habs]; exact h2)]
    omega
  have hk : roundNE (x / 2 ^ (e - 52)) = k :=
    roundNE_eq _ k (by rw [abs_lt]; constructor <;> linarith)
  unfold F64.round
  simp only [hu, hk]
  rw [← hr, if_neg (not_le.mpr hlt), if_neg (not_le.mpr hgt)]

theorem F64.round_zero : F64.round 0 = F64.fin 0 := by
  have hk : roundNE ((0 : ℚ) / 2 ^ ulpExp (0 : ℚ)) = 0 := by
    rw [zero_div]
    exact roundNE_eq 0 0 (by norm_num)
  unfold F64.round
  simp only [hk]
  norm_num

theorem F64.round_fin_iff (d : ℚ) (h : F64.round d = F64.fin d) :
    (roundNE (d / 2 ^ ulpExp d) : ℚ) * 2 ^ ulpExp d = d ∧ d < 2 ^ (1024 : ℤ) ∧
      -2 ^ (1024 : ℤ) < d := by
  unfold F64.round at h
  simp only at h
  split_ifs at h with h1 h2
  · have := F64.fin.inj h
    exact ⟨this, by rw [← this]; exact not_le.mp h1, by rw [← this]; exact not_le.mp h2⟩

theorem abs_lt_of_ulpExp (d : ℚ) : |d| < 2 ^ (ulpExp d + 53) := by
  have h := Int.lt_zpow_succ_log_self (b := 2) (by norm_num) |d|
  have hle : Int.log 2 |d| + 1 ≤ ulpExp d + 53 := by
    unfold ulpExp
    have := le_max_left (Int.log 2 |d| - 52) (-1074)
    omega
  calc |d| < ((2 : ℕ) : ℚ) ^ (Int.log 2 |d| + 1) := h
    _ = (2 : ℚ) ^ (Int.log 2 |d| + 1) := by norm_num
    _ ≤ 2 ^ (ulpExp d + 53) := zpow_le_zpow_right₀ (by norm_num) hle

theorem zpow_le_abs (x : ℚ) (hx : x ≠ 0) : (2 : ℚ) ^ Int.log 2 |x| ≤ |x| := by
  have := Int.zpow_log_le_self (b := 2) (r := |x|) (by norm_num) (abs_pos.mpr hx)
  simpa using this

/-- Rounding is monotone against a binary64 value: a binary64 value `d` below `x`
is below the rounding of `x`, and one above `x` is above it. -/
theorem roundNE_mono_double (d x : ℚ) (hd : F64.round d = F64.fin d) :
    (d ≤ x → d ≤ (roundNE (x / 2 ^ ulpExp x) : ℚ) * 2 ^ ulpExp x) ∧
    (x ≤ d → (roundNE (x / 2 ^ ulpExp x) : ℚ) * 2 ^ ulpExp x ≤ d) := by
  obtain ⟨kd, hkd⟩ : ∃ kd : ℤ, (kd : ℚ) * 2 ^ ulpExp d = d :=
    ⟨_, (F64.round_fin_iff d hd).1⟩
  have hu : (0 : ℚ) < 2 ^ ulpExp x := by positivity
  have h2 : (2 : ℚ) ≠ 0 := by norm_num
  -- multiples of the unit of `x` are kept on their side
  have hmult : ∀ n : ℤ,
      ((n : ℚ) * 2 ^ ulpExp x ≤ x → (n : ℚ) * 2 ^ ulpExp x ≤
        (roundNE (x / 2 ^ ulpExp x) : ℚ) * 2 ^ ulpExp x) ∧
      (x ≤ (n : ℚ) * 2 ^ ulpExp x → (roundNE (x / 2 ^ ulpExp x) : ℚ) * 2 ^ ulpExp x ≤
        (n : ℚ) * 2 ^ ulpExp x) := by
    intro n
    constructor
    · intro hx
      have h1 : (n : ℚ) ≤ x / 2 ^ ulpExp x := by rwa [le_div_iff₀ hu]
      exact mul_le_mul_of_nonneg_right (by exact_mod_cast roundNE_ge _ _ h1) hu.le
    · intro hx
      have h1 : x / 2 ^ ulpExp x ≤ (n : ℚ) := by rwa [div_le_iff₀ hu]
      exact mul_le_mul_of_nonneg_right (by exact_mod_cast roundNE_le _ _ h1) hu.le
  by_cases hp : ulpExp x ≤ ulpExp d
  · -- `d` is a multiple of the unit of `x`
    obtain ⟨m, hm⟩ : ∃ m : ℕ, ulpExp d = ulpExp x + m :=
      ⟨(ulpExp d - ulpExp x).toNat, by omega⟩
    have hdn : ((kd * 2 ^ m : ℤ) : ℚ) * 2 ^ ulpExp x = d := by
      rw [← hkd, hm, zpow_add₀ h2, zpow_natCast]
      push_cast
      ring
    have := hmult (kd * 2 ^ m)
    rw [hdn] at this
    exact this
  · -- `d` is finer than the unit of `x`: it is below `2 ^ e ≤ |x|`
    have hp2 : ulpExp d < ulpExp x := not_le.mp hp
    have hdmin : -1074 ≤ ulpExp d := le_max_right _ _
    by_cases hx0 : x = 0
    · subst hx0
      have hr0 : roundNE ((0 : ℚ) / 2 ^ ulpExp (0 : ℚ)) = 0 := by
        rw [zero_div]
        exact roundNE_eq 0 0 (by norm_num)
      rw [hr0]
      simp
    have he : ulpExp x = Int.log 2 |x| - 52 := by
      unfold ulpExp at hp2 ⊢
      rcases max_cases (Int.log 2 |x| - 52) (-1074) with ⟨h, -⟩ | ⟨h, -⟩
      · exact h
      · rw [h] at hp2
        omega
    have hxe : (2 : ℚ) ^ (ulpExp x + 52) ≤ |x| := by
      rw [he, sub_add_cancel]
      exact zpow_le_abs x hx0
    have hde : |d| < 2 ^ (ulpExp x + 52) :=
      lt_of_lt_of_le (abs_lt_of_ulpExp d) (zpow_le_zpow_right₀ (by norm_num) (by omega))
    have hpow : ((2 ^ 52 : ℤ) : ℚ) * 2 ^ ulpExp x = 2 ^ (ulpExp x + 52) := by
      rw [zpow_add₀ h2]
      push_cast
      norm_num
      ring
    have hm1 := hmult (2 ^ 52)
    have hm2 := hmult (-(2 ^ 52))
    have hneg : ((-(2 ^ 52) : ℤ) : ℚ) * 2 ^ ulpExp x = -2 ^ (ulpExp x + 52) := by
      rw [← hpow]
      push_cast
      ring
    rw [hpow] at hm1
    rw [hneg] at hm2
    rw [abs_lt] at hde
    constructor
    · intro hx
      rcases le_or_lt 0 x with hpos | hneg2
      · rw [abs_of_nonneg hpos] at hxe
        exact le_trans hde.2.le (hm1.1 hxe)
      · rw [abs_of_neg hneg2] at hxe
        linarith
    · intro hx
      rcases le_or_lt 0 x with hpos | hneg2
      · rw [abs_of_nonneg hpos] at hxe
        linarith
      · rw [abs_of_neg hneg2] at hxe
        exact le_trans (hm2.2 (by linarith)) hde.1.le

theorem F64.round_ge (d x : ℚ) (hd : F64.round d = F64.fin d) (hx : d ≤ x) :
    F64.round x = F64.pinf ∨ ∃ r, F64.round x = F64.fin r ∧ d ≤ r := by
  have hr := (roundNE_mono_double d x hd).1 hx
  obtain ⟨-, -, hdlo⟩ := F64.round_fin_iff d hd
  unfold F64.round
  simp only
  split_ifs with h1 h2
  · exact Or.inl rfl
  · linarith
  · exact Or.inr ⟨_, rfl, hr⟩

theorem F64.round_le (d x : ℚ) (hd : F64.round d = F64.fin d) (hx : x ≤ d) :
    F64.round x = F64.ninf ∨ ∃ r, F64.round x = F64.fin r ∧ r ≤ d := by
  have hr := (roundNE_mono_double d x hd).2 hx
  obtain ⟨-, hdhi, -⟩ := F64.round_fin_iff d hd
  unfold F64.round
  simp only
  split_ifs with h1 h2
  · linarith
  · exact Or.inl rfl
  · exact Or.inr ⟨_, rfl, hr⟩

/-- A non-negative binary64 value is not strictly outside the band the code computes
around it with a non-negative tolerance: it is neither above `c + c * t` nor below
`c - c * t`. -/
theorem F64.in_own_band (c t : F64) (hc : F64.fin 0 ≤ c) (ht : F64.fin 0 ≤ t)
    (hd : c.IsDouble) : ¬ (c + c * t < c) ∧ ¬ (c < c - c * t) := by
  rw [F64.lt_def, F64.lt_def, F64.add_def, F64.sub_def, F64.mul_def]
  rw [F64.le_def] at hc ht
  cases c with
  | fin q =>
    have hq : (0 : ℚ) ≤ q := by simpa [F64.le] using hc
    have hdq : F64.round q = F64.fin q := hd
    -- the two ends once the product is known to be `fin r` with `0 ≤ r` or `+Inf`
    have hfin : ∀ r : ℚ, 0 ≤ r →
        ¬ (F64.lt (F64.add (F64.fin q) (F64.fin r)) (F64.fin q) = true) ∧
        ¬ (F64.lt (F64.fin q) (F64.add (F64.fin q) (F64.neg (F64.fin r))) = true) := by
      intro r hr
      constructor
      · rcases F64.round_ge q (q + r) hdq (by linarith) with h | ⟨r1, h, hr1⟩
        · simp [F64.add, h, F64.lt]
        · simp [F64.add, h, F64.lt, hr1]
      · rcases F64.round_le q (q + -r) hdq (by linarith) with h | ⟨r1, h, hr1⟩
        · simp [F64.add, F64.neg, h, F64.lt]
        · simp [F64.add, F64.neg, h, F64.lt, hr1]
    have hinf : ¬ (F64.lt (F64.add (F64.fin q) F64.pinf) (F64.fin q) = true) ∧
        ¬ (F64.lt (F64.fin q) (F64.add (F64.fin q) (F64.neg F64.pinf)) = true) := by
      simp [F64.add, F64.neg, F64.lt]
    have hnan : ¬ (F64.lt (F64.add (F64.fin q) F64.nan) (F64.fin q) = true) ∧
        ¬ (F64.lt (F64.fin q) (F64.add (F64.fin q) (F64.neg F64.nan)) = true) := by
      simp [F64.add, F64.neg, F64.lt]
    cases t with
    | fin t1 =>
      have ht1 : (0 : ℚ) ≤ t1 := by simpa [F64.le] using ht
      rcases F64.round_ge 0 (q * t1) F64.round_zero (mul_nonneg hq ht1) with h | ⟨r, h, hr⟩
      · simp only [F64.mul, h]
        exact hinf
      · simp only [F64.mul, h]
        exact hfin r hr
    | pinf =>
      rcases eq_or_lt_of_le hq with h0 | hpos
      · subst h0
        simp only [F64.mul, if_true]
        exact hnan
      · have hne : q ≠ 0 := ne_of_gt hpos
        simp only [F64.mul, hne, hpos, if_false, if_true]
        exact hinf
    | ninf => simp [F64.le] at ht
    | nan => simp [F64.le] at ht
  | pinf =>
    cases t with
    | fin t1 =>
      have ht1 : (0 : ℚ) ≤ t1 := by simpa [F64.le] using ht
      rcases eq_or_lt_of_le ht1 with h0 | hpos
      · subst h0
        simp [F64.mul, F64.add, F64.neg, F64.lt]
      · have hne : t1 ≠ 0 := ne_of_gt hpos
        simp [F64.mul, F64.add, F64.neg, F64.lt, hne, hpos]
    | pinf => simp [F64.mul, F64.add, F64.neg, F64.lt]
    | ninf => simp [F64.le] at ht
    | nan => simp [F64.le] at ht
  | ninf => simp [F64.le] at hc
  | nan => simp [F64.le] at hc

/-- The result of `math.Min` is at most its second argument when no argument is
`NaN`. -/
theorem F64.min_le_right (x y : F64) (hx : x ≠ F64.nan) (hy : y ≠ F64.nan) :
    F64.min x y ≤ y := by
  rw [F64.le_def]
  unfold F64.min
  cases x <;> cases y <;> simp [F64.lt, F64.le] at hx hy ⊢
  rename_i a b
  by_cases hab : a < b
  · simp [hab, F64.le, le_of_lt hab]
  · simp [hab, F64.le]

theorem F64.min_ne_nan (x y : F64) (hx : x ≠ F64.nan) (hy : y ≠ F64.nan) :
    F64.min x y ≠ F64.nan := by
  unfold F64.min
  cases x <;> cases y <;> simp [F64.lt] at hx hy ⊢
  rename_i a b
  by_cases hab : a < b <;> simp [hab]

theorem F64.round_ne_nan (x : ℚ) : F64.round x ≠ F64.nan := by
  unfold F64.round
  simp only
  split_ifs <;> simp

/-- A quotient by a finite non-zero value is not `NaN` unless the dividend is. -/
theorem F64.div_ne_nan (x : F64) (b : ℚ) (hx : x ≠ F64.nan) (hb : b ≠ 0) :
    x / F64.fin b ≠ F64.nan := by
  rw [F64.div_def]
  cases x with
  | fin a =>
    simp only [F64.div, hb, if_false]
    exact F64.round_ne_nan _
  | pinf =>
    simp only [F64.div]
    split_ifs <;> simp
  | ninf =>
    simp only [F64.div]
    split_ifs <;> simp
  | nan => exact absurd rfl hx

/-! ## Evaluations in binary64 -/

theorem p1_02_eq : p1_02 = F64.fin (2296835809958953 / 2251799813685248) := by
  show F64.round 1.02 = _
  exact F64.round_eval (1.02) 0 4593671619917906 _ (by norm_num) (by norm_num) (by norm_num)
    (by norm_num) (by norm_num) (by norm_num) (by norm_num) (by norm_num) (by norm_num)

theorem p1_05_eq : p1_05 = F64.fin (4728779608739021 / 4503599627370496) := by
  show F64.round 1.05 = _
  exact F64.round_eval (1.05) 0 4728779608739021 _ (by norm_num) (by norm_num) (by norm_num)
    (by norm_num) (by norm_num) (by norm_num) (by norm_num) (by norm_num) (by norm_num)

theorem p1_021_eq : p1_021 = F64.fin (1149543804886319 / 1125899906842624) := by
  show F64.round 1.021 = _
  exact F64.round_eval (1.021) 0 4598175219545276 _ (by norm_num) (by norm_num) (by norm_num)
    (by norm_num) (by norm_num) (by norm_num) (by norm_num) (by norm_num) (by norm_num)

theorem p0_01_eq : p0_01 = F64.fin (5764607523034235 / 576460752303423488) := by
  show F64.round 0.01 = _
  exact F64.round_eval (0.01) (-7) 5764607523034235 _ (by norm_num) (by norm_num) (by norm_num)
    (by norm_num) (by norm_num) (by norm_num) (by norm_num) (by norm_num) (by norm_num)

theorem p1_1_eq : p1_1 = F64.fin (2476979795053773 / 2251799813685248) := by
  show F64.round 1.1 = _
  exact F64.round_eval (1.1) 0 4953959590107546 _ (by norm_num) (by norm_num) (by norm_num)
    (by norm_num) (by norm_num) (by norm_num) (by norm_num) (by norm_num) (by norm_num)

theorem p1_089_eq : p1_089 = F64.fin (2452209997103235 / 2251799813685248) := by
  show F64.round 1.089 = _
  exact F64.round_eval (1.089) 0 4904419994206470 _ (by norm_num) (by norm_num) (by norm_num)
    (by norm_num) (by norm_num) (by norm_num) (by norm_num) (by norm_num) (by norm_num)

theorem p5_85_eq : p5_85 = F64.fin (3293257227514675 / 562949953421312) := by
  show F64.round 5.85 = _
  exact F64.round_eval (5.85) 2 6586514455029350 _ (by norm_num) (by norm_num) (by norm_num)
    (by norm_num) (by norm_num) (by norm_num) (by norm_num) (by norm_num) (by norm_num)

theorem p0_1_eq : p0_1 = F64.fin (3602879701896397 / 36028797018963968) := by
  show F64.round 0.1 = _
  exact F64.round_eval (0.1) (-4) 7205759403792794 _ (by norm_num) (by norm_num) (by norm_num)
    (by norm_num) (by norm_num) (by norm_num) (by norm_num) (by norm_num) (by norm_num)

theorem p0_68_eq : p0_68 = F64.fin (6124895493223875 / 9007199254740992) := by
  show F64.round 0.68 = _
  exact F64.round_eval (0.68) (-1) 6124895493223875 _ (by norm_num) (by norm_num) (by norm_num)
    (by norm_num) (by norm_num) (by norm_num) (by norm_num) (by norm_num) (by norm_num)

theorem p0_17_eq : p0_17 = F64.fin (6124895493223875 / 36028797018963968) := by
  show F64.round 0.17 = _
  exact F64.round_eval (0.17) (-3) 6124895493223875 _ (by norm_num) (by norm_num) (by norm_num)
    (by norm_num) (by norm_num) (by norm_num) (by norm_num) (by norm_num) (by norm_num)

theorem scenario_priceMargin : p1_02 * p0_01 = F64.fin (734987459186865 / 72057594037927936) := by
  rw [p1_02_eq, p0_01_eq]
  show F64.round (2296835809958953 / 2251799813685248 * (5764607523034235 / 576460752303423488)) = _
  exact F64.round_eval (2296835809958953 / 2251799813685248 * (5764607523034235 /
      576460752303423488)) (-7) 5879899673494920 _ (by norm_num) (by norm_num) (by norm_num)
    (by norm_num) (by norm_num) (by norm_num) (by norm_num) (by norm_num) (by norm_num)

theorem scenario_highestPrice : p1_02 + F64.fin (734987459186865 / 72057594037927936) =
    F64.fin (4639608336117085 / 4503599627370496) := by
  rw [p1_02_eq]
  show F64.round (2296835809958953 / 2251799813685248 + 734987459186865 / 72057594037927936) = _
  exact F64.round_eval (2296835809958953 / 2251799813685248 + 734987459186865 /
      72057594037927936) 0 4639608336117085 _ (by norm_num) (by norm_num) (by norm_num)
    (by norm_num) (by norm_num) (by norm_num) (by norm_num) (by norm_num) (by norm_num)

theorem scenario_lowestPrice : p1_02 - F64.fin (734987459186865 / 72057594037927936) =
    F64.fin (4547734903718727 / 4503599627370496) := by
  rw [p1_02_eq]
  show F64.round (2296835809958953 / 2251799813685248 + -(734987459186865 / 72057594037927936)) = _
  exact F64.round_eval (2296835809958953 / 2251799813685248 + -(734987459186865 /
      72057594037927936)) 0 4547734903718727 _ (by norm_num) (by norm_num) (by norm_num)
    (by norm_num) (by norm_num) (by norm_num) (by norm_num) (by norm_num) (by norm_num)

theorem hundred_margin : F64.fin 100 * p0_01 = F64.fin 1 := by
  rw [p0_01_eq]
  show F64.round (100 * (5764607523034235 / 576460752303423488)) = _
  exact F64.round_eval (100 * (5764607523034235 / 576460752303423488)) 0 4503599627370496 _
      (by norm_num) (by norm_num) (by norm_num)
    (by norm_num) (by norm_num) (by norm_num) (by norm_num) (by norm_num) (by norm_num)

theorem hundred_minAmount : F64.fin 100 - F64.fin 1 = F64.fin 99 := by
  show F64.round (100 + -(1)) = _
  exact F64.round_eval (100 + -(1)) 6 6966505673588736 _ (by norm_num) (by norm_num) (by norm_num)
    (by norm_num) (by norm_num) (by norm_num) (by norm_num) (by norm_num) (by norm_num)

theorem hundred_maxAmount : F64.fin 100 + F64.fin 1 = F64.fin 101 := by
  show F64.round (100 + 1) = _
  exact F64.round_eval (100 + 1) 6 7107243161944064 _ (by norm_num) (by norm_num) (by norm_num)
    (by norm_num) (by norm_num) (by norm_num) (by norm_num) (by norm_num) (by norm_num)

theorem hundred_claimedLow : F64.fin 100 * F64.fin (4458563631096791 / 4503599627370496) =
    F64.fin 99 := by
  show F64.round (100 * (4458563631096791 / 4503599627370496)) = _
  exact F64.round_eval (100 * (4458563631096791 / 4503599627370496)) 6 6966505673588736 _
      (by norm_num) (by norm_num) (by norm_num)
    (by norm_num) (by norm_num) (by norm_num) (by norm_num) (by norm_num) (by norm_num)

theorem hundred_claimedHigh : F64.fin 100 * F64.fin (4548635623644201 / 4503599627370496) =
    F64.fin 101 := by
  show F64.round (100 * (4548635623644201 / 4503599627370496)) = _
  exact F64.round_eval (100 * (4548635623644201 / 4503599627370496)) 6 7107243161944064 _
      (by norm_num) (by norm_num) (by norm_num)
    (by norm_num) (by norm_num) (by norm_num) (by norm_num) (by norm_num) (by norm_num)

theorem wideBand_priceMargin : F64.fin (13 / 2) * p0_1 = F64.fin (5854679515581645 /
    9007199254740992) := by
  rw [p0_1_eq]
  show F64.round (13 / 2 * (3602879701896397 / 36028797018963968)) = _
  exact F64.round_eval (13 / 2 * (3602879701896397 / 36028797018963968)) (-1)
      5854679515581645 _ (by norm_num) (by norm_num) (by norm_num)
    (by norm_num) (by norm_num) (by norm_num) (by norm_num) (by norm_num) (by norm_num)

theorem wideBand_lowestPrice : F64.fin (13 / 2) - F64.fin (5854679515581645 /
    9007199254740992) = F64.fin (3293257227514675 / 562949953421312) := by
  show F64.round (13 / 2 + -(5854679515581645 / 9007199254740992)) = _
  exact F64.round_eval (13 / 2 + -(5854679515581645 / 9007199254740992)) 2 6586514455029350
      _ (by norm_num) (by norm_num) (by norm_num)
    (by norm_num) (by norm_num) (by norm_num) (by norm_num) (by norm_num) (by norm_num)

theorem wideBand_highestPrice : F64.fin (13 / 2) + F64.fin (5854679515581645 /
    9007199254740992) = F64.fin (4025092166962381 / 562949953421312) := by
  show F64.round (13 / 2 + 5854679515581645 / 9007199254740992) = _
  exact F64.round_eval (13 / 2 + 5854679515581645 / 9007199254740992) 2 8050184333924762 _
      (by norm_num) (by norm_num) (by norm_num)
    (by norm_num) (by norm_num) (by norm_num) (by norm_num) (by norm_num) (by norm_num)

theorem one_sub_p0_1 : F64.fin 1 - p0_1 = F64.fin (8106479329266893 / 9007199254740992) := by
  rw [p0_1_eq]
  show F64.round (1 + -(3602879701896397 / 36028797018963968)) = _
  exact F64.round_eval (1 + -(3602879701896397 / 36028797018963968)) (-1) 8106479329266893 _
      (by norm_num) (by norm_num) (by norm_num)
    (by norm_num) (by norm_num) (by norm_num) (by norm_num) (by norm_num) (by norm_num)

theorem wideBand_claimedLow : F64.fin (13 / 2) * F64.fin (8106479329266893 /
    9007199254740992) = F64.fin (6586514455029351 / 1125899906842624) := by
  show F64.round (13 / 2 * (8106479329266893 / 9007199254740992)) = _
  exact F64.round_eval (13 / 2 * (8106479329266893 / 9007199254740992)) 2 6586514455029351 _
      (by norm_num) (by norm_num) (by norm_num)
    (by norm_num) (by norm_num) (by norm_num) (by norm_num) (by norm_num) (by norm_num)

theorem narrowBand_priceMargin : p1_1 * p0_01 = F64.fin (6341068275337659 /
    576460752303423488) := by
  rw [p1_1_eq, p0_01_eq]
  show F64.round (2476979795053773 / 2251799813685248 * (5764607523034235 / 576460752303423488)) = _
  exact F64.round_eval (2476979795053773 / 2251799813685248 * (5764607523034235 /
      576460752303423488)) (-7) 6341068275337659 _ (by norm_num) (by norm_num) (by norm_num)
    (by norm_num) (by norm_num) (by norm_num) (by norm_num) (by norm_num) (by norm_num)

theorem narrowBand_lowestPrice : p1_1 - F64.fin (6341068275337659 / 576460752303423488) =
    F64.fin (4904419994206471 / 4503599627370496) := by
  rw [p1_1_eq]
  show F64.round (2476979795053773 / 2251799813685248 + -(6341068275337659 /
      576460752303423488)) = _
  exact F64.round_eval (2476979795053773 / 2251799813685248 + -(6341068275337659 /
      576460752303423488)) 0 4904419994206471 _ (by norm_num) (by norm_num) (by norm_num)
    (by norm_num) (by norm_num) (by norm_num) (by norm_num) (by norm_num) (by norm_num)

theorem one_sub_p0_01 : F64.fin 1 - p0_01 = F64.fin (4458563631096791 / 4503599627370496) := by
  rw [p0_01_eq]
  show F64.round (1 + -(5764607523034235 / 576460752303423488)) = _
  exact F64.round_eval (1 + -(5764607523034235 / 576460752303423488)) (-1) 8917127262193582
      _ (by norm_num) (by norm_num) (by norm_num)
    (by norm_num) (by norm_num) (by norm_num) (by norm_num) (by norm_num) (by norm_num)

theorem narrowBand_claimedLow : p1_1 * F64.fin (4458563631096791 / 4503599627370496) =
    F64.fin (2452209997103235 / 2251799813685248) := by
  rw [p1_1_eq]
  show F64.round (2476979795053773 / 2251799813685248 * (4458563631096791 / 4503599627370496)) = _
  exact F64.round_eval (2476979795053773 / 2251799813685248 * (4458563631096791 /
      4503599627370496)) 0 4904419994206470 _ (by norm_num) (by norm_num) (by norm_num)
    (by norm_num) (by norm_num) (by norm_num) (by norm_num) (by norm_num) (by norm_num)

theorem one_add_p0_01 : F64.fin 1 + p0_01 = F64.fin (4548635623644201 / 4503599627370496) := by
  rw [p0_01_eq]
  show F64.round (1 + 5764607523034235 / 576460752303423488) = _
  exact F64.round_eval (1 + 5764607523034235 / 576460752303423488) 0 4548635623644201 _ (by
      norm_num) (by norm_num) (by norm_num)
    (by norm_num) (by norm_num) (by norm_num) (by norm_num) (by norm_num) (by norm_num)

theorem narrowBand_claimedHigh : p1_1 * F64.fin (4548635623644201 / 4503599627370496) =
    F64.fin (2501749593004311 / 2251799813685248) := by
  rw [p1_1_eq]
  show F64.round (2476979795053773 / 2251799813685248 * (4548635623644201 / 4503599627370496)) = _
  exact F64.round_eval (2476979795053773 / 2251799813685248 * (4548635623644201 /
      4503599627370496)) 0 5003499186008622 _ (by norm_num) (by norm_num) (by norm_num)
    (by norm_num) (by norm_num) (by norm_num) (by norm_num) (by norm_num) (by norm_num)

theorem looseBand_priceMargin : p0_68 * F64.fin (3 / 4) = F64.fin (2296835809958953 /
    4503599627370496) := by
  rw [p0_68_eq]
  show F64.round (6124895493223875 / 9007199254740992 * (3 / 4)) = _
  exact F64.round_eval (6124895493223875 / 9007199254740992 * (3 / 4)) (-1) 4593671619917906
      _ (by norm_num) (by norm_num) (by norm_num)
    (by norm_num) (by norm_num) (by norm_num) (by norm_num) (by norm_num) (by norm_num)

theorem looseBand_lowestPrice : p0_68 - F64.fin (2296835809958953 / 4503599627370496) =
    F64.fin (1531223873305969 / 9007199254740992) := by
  rw [p0_68_eq]
  show F64.round (6124895493223875 / 9007199254740992 + -(2296835809958953 / 4503599627370496)) = _
  exact F64.round_eval (6124895493223875 / 9007199254740992 + -(2296835809958953 /
      4503599627370496)) (-3) 6124895493223876 _ (by norm_num) (by norm_num) (by norm_num)
    (by norm_num) (by norm_num) (by norm_num) (by norm_num) (by norm_num) (by norm_num)

theorem one_sub_three_quarters : F64.fin 1 - F64.fin (3 / 4) = F64.fin (1 / 4) := by
  show F64.round (1 + -(3 / 4)) = _
  exact F64.round_eval (1 + -(3 / 4)) (-2) 4503599627370496 _ (by norm_num) (by norm_num)
      (by norm_num)
    (by norm_num) (by norm_num) (by norm_num) (by norm_num) (by norm_num) (by norm_num)

theorem looseBand_claimedLow : p0_68 * F64.fin (1 / 4) = F64.fin (6124895493223875 /
    36028797018963968) := by
  rw [p0_68_eq]
  show F64.round (6124895493223875 / 9007199254740992 * (1 / 4)) = _
  exact F64.round_eval (6124895493223875 / 9007199254740992 * (1 / 4)) (-3) 6124895493223875
      _ (by norm_num) (by norm_num) (by norm_num)
    (by norm_num) (by norm_num) (by norm_num) (by norm_num) (by norm_num) (by norm_num)

theorem one_add_three_quarters : F64.fin 1 + F64.fin (3 / 4) = F64.fin (7 / 4) := by
  show F64.round (1 + 3 / 4) = _
  exact F64.round_eval (1 + 3 / 4) 0 7881299347898368 _ (by norm_num) (by norm_num) (by norm_num)
    (by norm_num) (by norm_num) (by norm_num) (by norm_num) (by norm_num) (by norm_num)

theorem looseBand_claimedHigh : p0_68 * F64.fin (7 / 4) = F64.fin (5359283556570891 /
    4503599627370496) := by
  rw [p0_68_eq]
  show F64.round (6124895493223875 / 9007199254740992 * (7 / 4)) = _
  exact F64.round_eval (6124895493223875 / 9007199254740992 * (7 / 4)) 0 5359283556570891 _
      (by norm_num) (by norm_num) (by norm_num)
    (by norm_num) (by norm_num) (by norm_num) (by norm_num) (by norm_num) (by norm_num)

theorem isDouble_p1_02_val : (F64.fin (2296835809958953 / 2251799813685248)).IsDouble := by
  show F64.round (2296835809958953 / 2251799813685248) = _
  exact F64.round_eval (2296835809958953 / 2251799813685248) 0 4593671619917906 _ (by
      norm_num) (by norm_num) (by norm_num)
    (by norm_num) (by norm_num) (by norm_num) (by norm_num) (by norm_num) (by norm_num)

theorem isDouble_p1_05_val : (F64.fin (4728779608739021 / 4503599627370496)).IsDouble := by
  show F64.round (4728779608739021 / 4503599627370496) = _
  exact F64.round_eval (4728779608739021 / 4503599627370496) 0 4728779608739021 _ (by
      norm_num) (by norm_num) (by norm_num)
    (by norm_num) (by norm_num) (by norm_num) (by norm_num) (by norm_num) (by norm_num)

theorem isDouble_100 : (F64.fin 100).IsDouble := by
  show F64.round (100) = _
  exact F64.round_eval (100) 6 7036874417766400 _ (by norm_num) (by norm_num) (by norm_num)
    (by norm_num) (by norm_num) (by norm_num) (by norm_num) (by norm_num) (by norm_num)

theorem isDouble_150 : (F64.fin 150).IsDouble := by
  show F64.round (150) = _
  exact F64.round_eval (150) 7 5277655813324800 _ (by norm_num) (by norm_num) (by norm_num)
    (by norm_num) (by norm_num) (by norm_num) (by norm_num) (by norm_num) (by norm_num)

/-! ## The scenarios -/

theorem F64.fin_lt_fin (a b : ℚ) : F64.fin a < F64.fin b ↔ a < b := by
  simp [F64.lt_def, F64.lt]

theorem F64.fin_le_fin (a b : ℚ) : F64.fin a ≤ F64.fin b ↔ a ≤ b := by
  simp [F64.le_def, F64.le]

theorem F64.min_fin (a b : ℚ) :
    (GoFloat.Min (F64.fin a) (F64.fin b) : F64) = if a < b then F64.fin a else F64.fin b := by
  rw [F64.Min_def]
  by_cases h : a < b <;> simp [F64.min, F64.lt, h]

theorem UpdateWithOps_exactParse (s : SellSideStrategy F64) (offers : List (Offer F64)) :
    (UpdateWithOps exactParse s offers).e = none := by
  cases he : (UpdateWithOps exactParse s offers).e with
  | none => rfl
  | some e =>
    obtain ⟨-, i, -, op, -, hp, -⟩ :=
      updateLoop_error exactParse s offers s.currentLevels.length (le_refl _) [] none e he
    simp [exactParse] at hp

theorem scenario_level1 :
    levelDecision scenario liveOne 1 = some (MutationIntent.Create p1_05 (F64.fin 150)) := by
  rw [levelDecision_create scenario liveOne 1 ⟨p1_05, F64.fin 150⟩ rfl (by simp [liveOne])]
  simp only [scenario, MakeSellSideStrategy, Bool.false_eq_true, if_false]
  rw [F64.min_fin]
  norm_num

theorem scenario_level0 : levelDecision scenario liveOne 0 = none := by
  have hta : F64.fin 100 = GoFloat.Min
      (if scenario.divideAmountByPrice then
        (⟨p1_02, F64.fin 100⟩ : Level F64).targetAmount /
          (⟨p1_02, F64.fin 100⟩ : Level F64).targetPrice
       else (⟨p1_02, F64.fin 100⟩ : Level F64).targetAmount) scenario.maxAssetBase := by
    simp only [scenario, MakeSellSideStrategy, Bool.false_eq_true, if_false]
    rw [F64.min_fin]
    norm_num
  rw [levelDecision_live scenario liveOne 0 ⟨p1_02, F64.fin 100⟩ ⟨1, p1_021, F64.fin 99⟩
    rfl rfl (F64.fin 100) hta, if_neg]
  show ¬ ((p1_021 > p1_02 + p1_02 * p0_01 ∨ p1_021 < p1_02 - p1_02 * p0_01) ∨
    (F64.fin 99 < F64.fin 100 - F64.fin 100 * p0_01 ∨
      F64.fin 99 > F64.fin 100 + F64.fin 100 * p0_01))
  rw [scenario_priceMargin, scenario_highestPrice, scenario_lowestPrice, hundred_margin,
    hundred_minAmount, hundred_maxAmount, p1_021_eq]
  simp only [gt_iff_lt, F64.fin_lt_fin]
  norm_num

theorem scenario_liveOne (FromString : F64 → Except Error ℚ)
    (hp : FromString p1_05 = .ok 1.05) :
    UpdateWithOps FromString scenario liveOne =
      ⟨[MutationIntent.Create p1_05 (F64.fin 150)], some 1.05, none⟩ := by
  unfold UpdateWithOps
  have hlen : scenario.currentLevels.length = 1 + 1 := rfl
  simp only [hlen]
  rw [updateLoop_succ_ok FromString scenario liveOne 1 _ [] none _ 1.05 scenario_level1 hp,
    updateLoop_succ_none FromString scenario liveOne 0 _ _ _ scenario_level0]
  simp [updateLoop, minOffer]

theorem parse7_p1_05 : parse7 p1_05 = .ok 1.05 := by
  rw [p1_05_eq]
  have h : ⌊(4728779608739021 / 4503599627370496 : ℚ) * 10 ^ 7 + 1 / 2⌋ = 10500000 := by
    rw [Int.floor_eq_iff]
    constructor <;> norm_num
  simp only [parse7, h]
  norm_num

/-! ## Claims -/

/-- C1. With a cached ladder of length `D` and `L` live offers,
`PruneExistingOffers` returns `(deletes, trimmed)` where: if `L > D`, `deletes` has
exactly `L - D` entries, the `k`-th being the `Delete` of the offer at position
`D + k`, and `trimmed` is the first `D` offers; if `L ≤ D`, `deletes` is empty and
`trimmed` is the input; in both cases `length trimmed = min L D ≤ D`. -/
theorem C1_prune_correct {F : Type} (s : SellSideStrategy F) (offers : List (Offer F)) :
    (offers.length > s.currentLevels.length →
        (PruneExistingOffers s offers).1.length = offers.length - s.currentLevels.length ∧
        (∀ k, k < offers.length - s.currentLevels.length →
          (PruneExistingOffers s offers).1[k]? =
            (offers[s.currentLevels.length + k]?).map MutationIntent.Delete) ∧
        (∀ k, k < offers.length - s.currentLevels.length →
          ∃ o, offers[s.currentLevels.length + k]? = some o) ∧
        (PruneExistingOffers s offers).2 = offers.take s.currentLevels.length) ∧
    (offers.length ≤ s.currentLevels.length →
        (PruneExistingOffers s offers).1 = [] ∧ (PruneExistingOffers s offers).2 = offers) ∧
    (PruneExistingOffers s offers).2.length = min offers.length s.currentLevels.length ∧
    (PruneExistingOffers s offers).2.length ≤ s.currentLevels.length := by
  have hops : (PruneExistingOffers s offers).1 =
      (offers.drop s.currentLevels.length).map MutationIntent.Delete := by
    simp [PruneExistingOffers, pruneLoop_eq]
  refine ⟨fun hgt => ⟨?_, ?_, ?_, ?_⟩, fun hle => ⟨?_, ?_⟩, ?_, ?_⟩
  · rw [hops]; simp
  · intro k _
    rw [hops]; simp [List.getElem?_drop]
  · intro k hk
    exact ⟨offers[s.currentLevels.length + k], List.getElem?_eq_getElem (by omega)⟩
  · simp [PruneExistingOffers, hgt]
  · rw [hops, List.drop_of_length_le hle]; rfl
  · have : ¬ offers.length > s.currentLevels.length := by omega
    simp [PruneExistingOffers, this]
  · by_cases hgt : offers.length > s.currentLevels.length
    · simp [PruneExistingOffers, hgt]; omega
    · simp [PruneExistingOffers, hgt]; omega
  · by_cases hgt : offers.length > s.currentLevels.length
    · simp [PruneExistingOffers, hgt]
    · simp [PruneExistingOffers, hgt]; omega

/-- The scenario of C1: ladder length 2 and three live offers give one `Delete`, of
the offer at position 2, and the first two offers. -/
theorem C1_prune_correct_witness :
    (PruneExistingOffers scenario liveThree).1.length = 3 - 2 ∧
    (PruneExistingOffers scenario liveThree).1[0]? =
      some (MutationIntent.Delete ⟨3, F64.fin 2, F64.fin 5⟩) ∧
    (PruneExistingOffers scenario liveThree).2 =
      [⟨1, p1_1, F64.fin 100⟩, ⟨2, p1_05, F64.fin 150⟩] := by
  have h := (C1_prune_correct scenario liveThree).1 (by decide)
  exact ⟨h.1, h.2.1 0 (by decide), h.2.2.2⟩

/-- C2. At a ladder position `i` that has no live offer (`i ≥ len(offers)`), the
decision is a `Create` with the target price and the amount `math.Min(a, maxAssetBase)`,
`a` being the target amount, divided by the target price when the division mode is
on; a successful `UpdateWithOps` returns the decisions of the deeper positions, then
this one `Create`, then the decisions of the nearer positions.  The division and
`math.Min` are those of `float64`, whatever they return. -/
theorem C2_create_rule {F : Type} [GoFloat F] (FromString : F → Except Error ℚ)
    (s : SellSideStrategy F) (offers : List (Offer F)) (i : Nat) (lvl : Level F)
    (hl : s.currentLevels[i]? = some lvl) (hno : offers.length ≤ i)
    (hok : (UpdateWithOps FromString s offers).e = none) :
    levelDecision s offers i =
      some (MutationIntent.Create lvl.targetPrice
        (GoFloat.Min (if s.divideAmountByPrice then lvl.targetAmount / lvl.targetPrice
              else lvl.targetAmount) s.maxAssetBase)) ∧
    (UpdateWithOps FromString s offers).ops =
      decisions s offers (i + 1) s.currentLevels.length ++
        MutationIntent.Create lvl.targetPrice
          (GoFloat.Min (if s.divideAmountByPrice then lvl.targetAmount / lvl.targetPrice
                else lvl.targetAmount) s.maxAssetBase) ::
        decisions s offers 0 i := by
  have hd := levelDecision_create s offers i lvl hl hno
  obtain ⟨hi, -⟩ := List.getElem?_eq_some.mp hl
  refine ⟨hd, ?_⟩
  rw [UpdateWithOps_ops_at FromString s offers i hi hok, hd]
  rfl

/-- C2 at position 1 of the scenario, which has no live offer. -/
theorem C2_create_rule_witness :
    levelDecision scenario liveOne 1 = some (MutationIntent.Create p1_05 (F64.fin 150)) :=
  (C2_create_rule exactParse scenario liveOne 1 ⟨p1_05, F64.fin 150⟩ rfl (by simp [liveOne])
    (UpdateWithOps_exactParse _ _)).1.trans
    (by
      simp only [scenario, MakeSellSideStrategy, Bool.false_eq_true, if_false]
      rw [F64.min_fin]
      norm_num)

/-- The amount of a `Create` in division mode at a level of price `+0`, in binary64:
the quotient `100 / 0` is `+Inf` and the amount is `maxAssetBase`; the quotient `0 / 0`
is `NaN` and so is the amount. -/
theorem create_at_price_zero :
    (GoFloat.Min (F64.fin 100 / F64.fin 0) (F64.fin 1000) : F64) = F64.fin 1000 ∧
    (GoFloat.Min (F64.fin 0 / F64.fin 0) (F64.fin 1000) : F64) = F64.nan := by
  constructor <;> simp [F64.Min_def, F64.div_def, F64.div, F64.min, F64.lt]

/-- C3, as the claim states it, fails.  With the level `(6.5, 100)`, the price
tolerance `0.1` and the live offer `(5.85, 100)`, the live price is strictly below
`targetPrice * (1 - priceTolerance)`, both when this product is taken exactly on the
binary64 values and when it is computed in binary64; yet the code's
`lowestPrice = targetPrice - targetPrice * priceTolerance` is the live price itself,
the amount is within its band, and `UpdateWithOps` emits nothing. -/
theorem C3_outside_claimed_band_kept :
    (p5_85.toRat < (13 / 2 : ℚ) * (1 - p0_1.toRat)) ∧
    (p5_85 < F64.fin (13 / 2) * (F64.fin 1 - p0_1)) ∧
    (F64.fin (13 / 2) - F64.fin (13 / 2) * p0_1 = p5_85) ∧
    levelDecision wideBand [⟨1, p5_85, F64.fin 100⟩] 0 = none ∧
    UpdateWithOps exactParse wideBand [⟨1, p5_85, F64.fin 100⟩] = ⟨[], none, none⟩ := by
  have hta : F64.fin 100 = GoFloat.Min
      (if wideBand.divideAmountByPrice then
        (⟨F64.fin (13 / 2), F64.fin 100⟩ : Level F64).targetAmount /
          (⟨F64.fin (13 / 2), F64.fin 100⟩ : Level F64).targetPrice
       else (⟨F64.fin (13 / 2), F64.fin 100⟩ : Level F64).targetAmount)
      wideBand.maxAssetBase := by
    simp only [wideBand, scenario, MakeSellSideStrategy, Bool.false_eq_true, if_false]
    rw [F64.min_fin]
    norm_num
  have hd : levelDecision wideBand [⟨1, p5_85, F64.fin 100⟩] 0 = none := by
    rw [levelDecision_live wideBand [⟨1, p5_85, F64.fin 100⟩] 0
      ⟨F64.fin (13 / 2), F64.fin 100⟩ ⟨1, p5_85, F64.fin 100⟩ rfl rfl (F64.fin 100) hta,
      if_neg]
    show ¬ ((p5_85 > F64.fin (13 / 2) + F64.fin (13 / 2) * p0_1 ∨
        p5_85 < F64.fin (13 / 2) - F64.fin (13 / 2) * p0_1) ∨
      (F64.fin 100 < F64.fin 100 - F64.fin 100 * p0_01 ∨
        F64.fin 100 > F64.fin 100 + F64.fin 100 * p0_01))
    rw [wideBand_priceMargin, wideBand_highestPrice, wideBand_lowestPrice, hundred_margin,
      hundred_minAmount, hundred_maxAmount, p5_85_eq]
    simp only [gt_iff_lt, F64.fin_lt_fin]
    norm_num
  refine ⟨?_, ?_, ?_, hd, ?_⟩
  · rw [p5_85_eq, p0_1_eq]
    simp only [F64.toRat]
    norm_num
  · rw [one_sub_p0_1, wideBand_claimedLow, p5_85_eq, F64.fin_lt_fin]
    norm_num
  · rw [wideBand_priceMargin, wideBand_lowestPrice, p5_85_eq]
  · unfold UpdateWithOps
    exact updateLoop_all_none exactParse wideBand _ 1 (le_refl _) [] none
      (fun i hi => by
        have : i = 0 := by omega
        subst this
        exact hd)

/-- C3, amended.  At a ladder position `i` whose live offer has a price strictly above
`highestPrice = targetPrice + targetPrice * priceTolerance` or strictly below
`lowestPrice = targetPrice - targetPrice * priceTolerance`, or an amount strictly below
`minAmount = ta - ta * amountTolerance` or strictly above
`maxAmount = ta + ta * amountTolerance`, the four ends being computed in `float64` as
the code does and `ta` being the divided and clamped target amount, the decision is a
`Modify` of that live offer carrying the target price and `ta`; a successful
`UpdateWithOps` returns the decisions of the deeper positions, then this one `Modify`,
then those of the nearer positions. -/
theorem C3_modify_rule {F : Type} [GoFloat F] (FromString : F → Except Error ℚ)
    (s : SellSideStrategy F) (offers : List (Offer F)) (i : Nat) (lvl : Level F)
    (o : Offer F) (ta : F)
    (hl : s.currentLevels[i]? = some lvl) (ho : offers[i]? = some o)
    (hta : ta = GoFloat.Min (if s.divideAmountByPrice then lvl.targetAmount / lvl.targetPrice
              else lvl.targetAmount) s.maxAssetBase)
    (hout : (o.price > lvl.targetPrice + lvl.targetPrice * s.priceTolerance ∨
             o.price < lvl.targetPrice - lvl.targetPrice * s.priceTolerance) ∨
            (o.amount < ta - ta * s.amountTolerance ∨
             o.amount > ta + ta * s.amountTolerance))
    (hok : (UpdateWithOps FromString s offers).e = none) :
    levelDecision s offers i = some (MutationIntent.Modify o lvl.targetPrice ta) ∧
    (UpdateWithOps FromString s offers).ops =
      decisions s offers (i + 1) s.currentLevels.length ++
        MutationIntent.Modify o lvl.targetPrice ta :: decisions s offers 0 i := by
  have hd : levelDecision s offers i = some (MutationIntent.Modify o lvl.targetPrice ta) := by
    rw [levelDecision_live s offers i lvl o hl ho ta hta, if_pos hout]
  obtain ⟨hi, -⟩ := List.getElem?_eq_some.mp hl
  refine ⟨hd, ?_⟩
  rw [UpdateWithOps_ops_at FromString s offers i hi hok, hd]
  rfl

/-- C3, amended, on the scenario ladder with the live offers `[(1.1, 100), (1.05, 150)]`:
the price `1.1` at position 0 is above the `highestPrice` of the level `1.02`. -/
theorem C3_modify_rule_witness :
    p1_02 + p1_02 * p0_01 < p1_1 ∧
    levelDecision scenario [⟨1, p1_1, F64.fin 100⟩, ⟨2, p1_05, F64.fin 150⟩] 0 =
      some (MutationIntent.Modify ⟨1, p1_1, F64.fin 100⟩ p1_02 (F64.fin 100)) := by
  have hgt : p1_02 + p1_02 * p0_01 < p1_1 := by
    rw [scenario_priceMargin, scenario_highestPrice, p1_1_eq, F64.fin_lt_fin]
    norm_num
  exact ⟨hgt,
    (C3_modify_rule exactParse scenario [⟨1, p1_1, F64.fin 100⟩, ⟨2, p1_05, F64.fin 150⟩] 0
      ⟨p1_02, F64.fin 100⟩ ⟨1, p1_1, F64.fin 100⟩ (F64.fin 100) rfl rfl
      (by
        simp only [scenario, MakeSellSideStrategy, Bool.false_eq_true, if_false]
        rw [F64.min_fin]
        norm_num)
      (Or.inl (Or.inl hgt))
      (UpdateWithOps_exactParse _ _)).1⟩

/-- C4, as the claim states it, fails, on two inputs.

With the level `(1.1, 100)`, both tolerances `0.01` and the live offer `(1.089, 100)`,
the live price is in `[targetPrice * (1 - tol), targetPrice * (1 + tol)]`, both for the
decimal values and when the two ends are computed in binary64, and the amount is in
its band; yet the code's `lowestPrice = targetPrice - targetPrice * tol` is one unit
in the last place above `1.089`, and the decision is a `Modify`.

With the level `(0.68, 100)`, the price tolerance `0.75` and the live offer
`(0.17, 100)`, the live price is the lower end `targetPrice * (1 - tol)` itself, for
the decimal values, exactly on the binary64 values and computed in binary64; yet
the code's `lowestPrice` is above it, and the decision is a `Modify`. -/
theorem C4_inside_claimed_band_modified :
    (((1.1 : ℚ) * (1 - 0.01) ≤ 1.089 ∧ (1.089 : ℚ) ≤ 1.1 * (1 + 0.01)) ∧
      (p1_1 * (F64.fin 1 - p0_01) ≤ p1_089 ∧ p1_089 ≤ p1_1 * (F64.fin 1 + p0_01)) ∧
      (F64.fin 100 * (F64.fin 1 - p0_01) ≤ F64.fin 100 ∧
        F64.fin 100 ≤ F64.fin 100 * (F64.fin 1 + p0_01)) ∧
      p1_089 < p1_1 - p1_1 * p0_01 ∧
      levelDecision narrowBand [⟨1, p1_089, F64.fin 100⟩] 0 =
        some (MutationIntent.Modify ⟨1, p1_089, F64.fin 100⟩ p1_1 (F64.fin 100))) ∧
    (((0.68 : ℚ) * (1 - 0.75) = 0.17) ∧
      (p0_68.toRat * (1 - 3 / 4) = p0_17.toRat ∧ p0_17.toRat ≤ p0_68.toRat * (1 + 3 / 4)) ∧
      (p0_68 * (F64.fin 1 - F64.fin (3 / 4)) = p0_17 ∧
        p0_17 ≤ p0_68 * (F64.fin 1 + F64.fin (3 / 4))) ∧
      p0_17 < p0_68 - p0_68 * F64.fin (3 / 4) ∧
      levelDecision looseBand [⟨1, p0_17, F64.fin 100⟩] 0 =
        some (MutationIntent.Modify ⟨1, p0_17, F64.fin 100⟩ p0_68 (F64.fin 100))) := by
  have hlow1 : p1_089 < p1_1 - p1_1 * p0_01 := by
    rw [narrowBand_priceMargin, narrowBand_lowestPrice, p1_089_eq, F64.fin_lt_fin]
    norm_num
  have hlow2 : p0_17 < p0_68 - p0_68 * F64.fin (3 / 4) := by
    rw [looseBand_priceMargin, looseBand_lowestPrice, p0_17_eq, F64.fin_lt_fin]
    norm_num
  have hta1 : F64.fin 100 = GoFloat.Min
      (if narrowBand.divideAmountByPrice then
        (⟨p1_1, F64.fin 100⟩ : Level F64).targetAmount /
          (⟨p1_1, F64.fin 100⟩ : Level F64).targetPrice
       else (⟨p1_1, F64.fin 100⟩ : Level F64).targetAmount) narrowBand.maxAssetBase := by
    simp only [narrowBand, scenario, MakeSellSideStrategy, Bool.false_eq_true, if_false]
    rw [F64.min_fin]
    norm_num
  have hta2 : F64.fin 100 = GoFloat.Min
      (if looseBand.divideAmountByPrice then
        (⟨p0_68, F64.fin 100⟩ : Level F64).targetAmount /
          (⟨p0_68, F64.fin 100⟩ : Level F64).targetPrice
       else (⟨p0_68, F64.fin 100⟩ : Level F64).targetAmount) looseBand.maxAssetBase := by
    simp only [looseBand, scenario, MakeSellSideStrategy, Bool.false_eq_true, if_false]
    rw [F64.min_fin]
    norm_num
  refine ⟨⟨by norm_num, ⟨?_, ?_⟩, ⟨?_, ?_⟩, hlow1, ?_⟩,
    ⟨by norm_num, ⟨?_, ?_⟩, ⟨?_, ?_⟩, hlow2, ?_⟩⟩
  · rw [one_sub_p0_01, narrowBand_claimedLow, p1_089_eq, F64.fin_le_fin]
  · rw [one_add_p0_01, narrowBand_claimedHigh, p1_089_eq, F64.fin_le_fin]
    norm_num
  · rw [one_sub_p0_01, hundred_claimedLow, F64.fin_le_fin]
    norm_num
  · rw [one_add_p0_01, hundred_claimedHigh, F64.fin_le_fin]
    norm_num
  · rw [levelDecision_live narrowBand [⟨1, p1_089, F64.fin 100⟩] 0 ⟨p1_1, F64.fin 100⟩
      ⟨1, p1_089, F64.fin 100⟩ rfl rfl (F64.fin 100) hta1]
    exact if_pos (Or.inl (Or.inr hlow1))
  · rw [p0_68_eq, p0_17_eq]
    simp only [F64.toRat]
    norm_num
  · rw [p0_68_eq, p0_17_eq]
    simp only [F64.toRat]
    norm_num
  · rw [one_sub_three_quarters, looseBand_claimedLow, p0_17_eq]
  · rw [one_add_three_quarters, looseBand_claimedHigh, p0_17_eq, F64.fin_le_fin]
    norm_num
  · rw [levelDecision_live looseBand [⟨1, p0_17, F64.fin 100⟩] 0 ⟨p0_68, F64.fin 100⟩
      ⟨1, p0_17, F64.fin 100⟩ rfl rfl (F64.fin 100) hta2]
    exact if_pos (Or.inl (Or.inr hlow2))

/-- C4, amended.  At a ladder position `i` whose live offer has a price that is neither
strictly above `highestPrice = targetPrice + targetPrice * priceTolerance` nor strictly
below `lowestPrice = targetPrice - targetPrice * priceTolerance`, and an amount that is
neither strictly below `minAmount = ta - ta * amountTolerance` nor strictly above
`maxAmount = ta + ta * amountTolerance`, the four ends being computed in `float64` as
the code does, the decision is `nil`: `UpdateWithOps` returns only the decisions of
the other positions when it succeeds and nothing when it fails.  A live value equal to
one of the four computed ends is not strictly beyond it. -/
theorem C4_noop_rule {F : Type} [GoFloat F] (FromString : F → Except Error ℚ)
    (s : SellSideStrategy F) (offers : List (Offer F)) (i : Nat) (lvl : Level F)
    (o : Offer F) (ta : F)
    (hl : s.currentLevels[i]? = some lvl) (ho : offers[i]? = some o)
    (hta : ta = GoFloat.Min (if s.divideAmountByPrice then lvl.targetAmount / lvl.targetPrice
              else lvl.targetAmount) s.maxAssetBase)
    (hp1 : ¬ o.price > lvl.targetPrice + lvl.targetPrice * s.priceTolerance)
    (hp2 : ¬ o.price < lvl.targetPrice - lvl.targetPrice * s.priceTolerance)
    (ha1 : ¬ o.amount < ta - ta * s.amountTolerance)
    (ha2 : ¬ o.amount > ta + ta * s.amountTolerance) :
    levelDecision s offers i = none ∧
    ((UpdateWithOps FromString s offers).e = none →
      (UpdateWithOps FromString s offers).ops =
        decisions s offers (i + 1) s.currentLevels.length ++ decisions s offers 0 i) ∧
    ((UpdateWithOps FromString s offers).e ≠ none →
      (UpdateWithOps FromString s offers).ops = []) ∧
    ((o.price = lvl.targetPrice + lvl.targetPrice * s.priceTolerance →
        ¬ o.price > lvl.targetPrice + lvl.targetPrice * s.priceTolerance) ∧
      (o.price = lvl.targetPrice - lvl.targetPrice * s.priceTolerance →
        ¬ o.price < lvl.targetPrice - lvl.targetPrice * s.priceTolerance) ∧
      (o.amount = ta - ta * s.amountTolerance → ¬ o.amount < ta - ta * s.amountTolerance) ∧
      (o.amount = ta + ta * s.amountTolerance →
        ¬ o.amount > ta + ta * s.amountTolerance)) := by
  have hd : levelDecision s offers i = none := by
    rw [levelDecision_live s offers i lvl o hl ho ta hta, if_neg]
    rintro ((h | h) | (h | h))
    · exact hp1 h
    · exact hp2 h
    · exact ha1 h
    · exact ha2 h
  obtain ⟨hi, -⟩ := List.getElem?_eq_some.mp hl
  refine ⟨hd, ?_, ?_, ?_⟩
  · intro hok
    rw [UpdateWithOps_ops_at FromString s offers i hi hok, hd]
    rfl
  · intro herr
    cases he : (UpdateWithOps FromString s offers).e with
    | none => exact absurd he herr
    | some e =>
      have := (updateLoop_error FromString s offers s.currentLevels.length (le_refl _)
        [] none e he).1
      unfold UpdateWithOps
      rw [this]
  · refine ⟨fun h => ?_, fun h => ?_, fun h => ?_, fun h => ?_⟩ <;>
      (rw [h]; exact GoFloat.lt_irrefl _)

/-- C4, amended, at position 0 of the scenario: the price `1.021` is within the
computed price band and the amount `99` is the computed `minAmount` itself. -/
theorem C4_noop_rule_witness :
    F64.fin 100 - F64.fin 100 * p0_01 = F64.fin 99 ∧
    levelDecision scenario liveOne 0 = none := by
  have hta : F64.fin 100 = GoFloat.Min
      (if scenario.divideAmountByPrice then
        (⟨p1_02, F64.fin 100⟩ : Level F64).targetAmount /
          (⟨p1_02, F64.fin 100⟩ : Level F64).targetPrice
       else (⟨p1_02, F64.fin 100⟩ : Level F64).targetAmount) scenario.maxAssetBase := by
    simp only [scenario, MakeSellSideStrategy, Bool.false_eq_true, if_false]
    rw [F64.min_fin]
    norm_num
  have hmin : F64.fin 100 - F64.fin 100 * p0_01 = F64.fin 99 := by
    rw [hundred_margin, hundred_minAmount]
  refine ⟨hmin, (C4_noop_rule exactParse scenario liveOne 0 ⟨p1_02, F64.fin 100⟩
    ⟨1, p1_021, F64.fin 99⟩ (F64.fin 100) rfl rfl hta ?_ ?_ ?_ ?_).1⟩
  · show ¬ (p1_02 + p1_02 * p0_01 < p1_021)
    rw [scenario_priceMargin, scenario_highestPrice, p1_021_eq, F64.fin_lt_fin]
    norm_num
  · show ¬ (p1_021 < p1_02 - p1_02 * p0_01)
    rw [scenario_priceMargin, scenario_lowestPrice, p1_021_eq, F64.fin_lt_fin]
    norm_num
  · show ¬ (F64.fin 99 < F64.fin 100 - F64.fin 100 * p0_01)
    rw [hmin]
    exact GoFloat.lt_irrefl _
  · show ¬ (F64.fin 100 + F64.fin 100 * p0_01 < F64.fin 99)
    rw [hundred_margin, hundred_maxAmount, F64.fin_lt_fin]
    norm_num

/-- C5. When `UpdateWithOps` succeeds, the returned top price is absent exactly when
the returned list is empty; every returned operation is a `Create` or a `Modify`
whose price parses; and a returned top price is the parsed price of a returned
operation and is at most the parsed price of every returned operation. -/
theorem C5_top_price {F : Type} [GoFloat F] (FromString : F → Except Error ℚ)
    (s : SellSideStrategy F) (offers : List (Offer F))
    (hok : (UpdateWithOps FromString s offers).e = none) :
    ((UpdateWithOps FromString s offers).newTopOffer = none ↔
      (UpdateWithOps FromString s offers).ops = []) ∧
    (∀ op ∈ (UpdateWithOps FromString s offers).ops,
      ((∃ price amount, op = MutationIntent.Create price amount) ∨
       (∃ target price amount, op = MutationIntent.Modify target price amount)) ∧
      ∃ p, FromString op.Price = .ok p) ∧
    (∀ t, (UpdateWithOps FromString s offers).newTopOffer = some t →
      (∃ op ∈ (UpdateWithOps FromString s offers).ops, FromString op.Price = .ok t) ∧
      ∀ op ∈ (UpdateWithOps FromString s offers).ops, ∀ p,
        FromString op.Price = .ok p → t ≤ p) := by
  have hops := UpdateWithOps_ops FromString s offers hok
  have hparse := (updateLoop_ok FromString s offers s.currentLevels.length (le_refl _)
    [] none hok).2
  obtain ⟨h1, h2⟩ := updateLoop_top FromString s offers s.currentLevels.length
    (le_refl _) [] none hok
  rw [hops]
  refine ⟨?_, ?_, ?_⟩
  · simpa [UpdateWithOps] using h1
  · intro op hmem
    obtain ⟨i, -, hd⟩ := (mem_decisions s offers _ op).mp hmem
    exact ⟨levelDecision_not_delete s offers i op hd, hparse op hmem⟩
  · intro t ht
    obtain ⟨ha, -, hc⟩ := h2 t ht
    refine ⟨?_, hc⟩
    rcases ha with ha | ha
    · cases ha
    · exact ha

/-- C5 on the scenario: the top price 1.05 is the parsed price of the one returned
`Create`. -/
theorem C5_top_price_witness :
    (UpdateWithOps parse7 scenario liveOne).newTopOffer = some 1.05 ∧
    ∃ op ∈ (UpdateWithOps parse7 scenario liveOne).ops, parse7 op.Price = .ok 1.05 :=
  ⟨by rw [scenario_liveOne parse7 parse7_p1_05],
   ((C5_top_price parse7 scenario liveOne
      (by rw [scenario_liveOne parse7 parse7_p1_05])).2.2 1.05
      (by rw [scenario_liveOne parse7 parse7_p1_05])).1⟩

/-- C6. If the decision of some ladder position fails to parse, `UpdateWithOps`
returns an error, a `nil` list and a `nil` top price, whatever the deeper positions
contributed; the error is that of the deepest position whose decision fails to parse.
Conversely a returned error is the parse error of the decision of some position. -/
theorem C6_atomic_failure {F : Type} [GoFloat F] (FromString : F → Except Error ℚ)
    (s : SellSideStrategy F) (offers : List (Offer F)) :
    (∀ i op e, levelDecision s offers i = some op → FromString op.Price = .error e →
      (UpdateWithOps FromString s offers).ops = [] ∧
      (UpdateWithOps FromString s offers).newTopOffer = none ∧
      (UpdateWithOps FromString s offers).e ≠ none) ∧
    (∀ i op e, levelDecision s offers i = some op → FromString op.Price = .error e →
      (∀ j, i < j → ∀ op1, levelDecision s offers j = some op1 →
        ∃ p, FromString op1.Price = .ok p) →
      UpdateWithOps FromString s offers = ⟨[], none, some e⟩) ∧
    (∀ e, (UpdateWithOps FromString s offers).e = some e →
      ∃ i, i < s.currentLevels.length ∧ ∃ op, levelDecision s offers i = some op ∧
        FromString op.Price = .error e) := by
  have hfail : ∀ i op e, levelDecision s offers i = some op →
      FromString op.Price = .error e →
      ∃ e1, (UpdateWithOps FromString s offers).e = some e1 := by
    intro i op e hd hp
    cases he : (UpdateWithOps FromString s offers).e with
    | some e1 => exact ⟨e1, rfl⟩
    | none =>
      have hi : i < s.currentLevels.length := by
        by_contra hcon
        simp [levelDecision, hcon] at hd
      obtain ⟨p, hpok⟩ := (updateLoop_ok FromString s offers s.currentLevels.length
        (le_refl _) [] none he).2 op ((mem_decisions s offers _ op).mpr ⟨i, hi, hd⟩)
      rw [hp] at hpok
      cases hpok
  refine ⟨?_, ?_, ?_⟩
  · intro i op e hd hp
    obtain ⟨e1, he1⟩ := hfail i op e hd hp
    have hr := (updateLoop_error FromString s offers s.currentLevels.length (le_refl _)
      [] none e1 he1).1
    have hr2 : UpdateWithOps FromString s offers = ⟨[], none, some e1⟩ := hr
    rw [hr2]
    simp
  · intro i op e hd hp hdeep
    obtain ⟨e1, he1⟩ := hfail i op e hd hp
    obtain ⟨hr, k, hk, op2, hd2, hp2, hdeep2⟩ := updateLoop_error FromString s offers
      s.currentLevels.length (le_refl _) [] none e1 he1
    have hi : i < s.currentLevels.length := by
      by_contra hcon
      simp [levelDecision, hcon] at hd
    have hik : i = k := by
      rcases Nat.lt_trichotomy i k with hlt | heq | hgt
      · obtain ⟨p, hpok⟩ := hdeep k hlt op2 hd2
        rw [hp2] at hpok
        cases hpok
      · exact heq
      · obtain ⟨p, hpok⟩ := hdeep2 i hgt hi op hd
        rw [hp] at hpok
        cases hpok
    subst hik
    rw [hd] at hd2
    cases hd2
    rw [hp] at hp2
    cases hp2
    exact hr
  · intro e he
    obtain ⟨-, k, hk, op, hd, hp, -⟩ := updateLoop_error FromString s offers
      s.currentLevels.length (le_refl _) [] none e he
    exact ⟨k, hk, op, hd, hp⟩

/-- C6 on the scenario ladder without live offers and a parse that fails on the price
1.02: the `Create` of position 1 parses and is collected, the `Create` of position 0
fails, and the call returns the error alone. -/
theorem C6_atomic_failure_witness :
    levelDecision scenario [] 1 = some (MutationIntent.Create p1_05 (F64.fin 150)) ∧
    failAt p1_02 p1_05 = .ok p1_05.toRat ∧
    UpdateWithOps (failAt p1_02) scenario [] = ⟨[], none, some "price not representable"⟩ := by
  have h1 : levelDecision scenario [] 1 =
      some (MutationIntent.Create p1_05 (F64.fin 150)) := by
    rw [levelDecision_create scenario [] 1 ⟨p1_05, F64.fin 150⟩ rfl (by simp)]
    simp only [scenario, MakeSellSideStrategy, Bool.false_eq_true, if_false]
    rw [F64.min_fin]
    norm_num
  have h0 : levelDecision scenario [] 0 =
      some (MutationIntent.Create p1_02 (F64.fin 100)) := by
    rw [levelDecision_create scenario [] 0 ⟨p1_02, F64.fin 100⟩ rfl (by simp)]
    simp only [scenario, MakeSellSideStrategy, Bool.false_eq_true, if_false]
    rw [F64.min_fin]
    norm_num
  have hne : p1_05 ≠ p1_02 := by
    rw [p1_05_eq, p1_02_eq]
    intro h
    have := F64.fin.inj h
    norm_num at this
  have hp1 : failAt p1_02 p1_05 = .ok p1_05.toRat := by
    simp [failAt, hne]
  refine ⟨h1, hp1, ?_⟩
  refine (C6_atomic_failure (failAt p1_02) scenario []).2.1 0 _ _ h0
    (by simp [failAt, MutationIntent.Price]) ?_
  intro j hj op1 hd
  by_cases hj1 : j = 1
  · subst hj1
    rw [h1] at hd
    cases hd
    exact ⟨_, hp1⟩
  · have hlen : ¬ j < scenario.currentLevels.length := by
      have : scenario.currentLevels.length = 2 := rfl
      omega
    simp [levelDecision, hlen] at hd

/-- C7, as the claim states it, fails: with a failing price feed, `PreUpdate 500 200`
returns the feed error and yet has replaced the stored `maxAssetBase` (1000) by 500
and the stored `maxAssetQuote` (0) by 200. -/
theorem C7_caps_overwritten :
    (feedDown.pf.GetCenterPrice ()).2 = some "feed unavailable" ∧
    (PreUpdate feedDown (F64.fin 500) (F64.fin 200)).e = some "feed unavailable" ∧
    feedDown.maxAssetBase = F64.fin 1000 ∧
    (PreUpdate feedDown (F64.fin 500) (F64.fin 200)).s.maxAssetBase = F64.fin 500 ∧
    feedDown.maxAssetQuote = F64.fin 0 ∧
    (PreUpdate feedDown (F64.fin 500) (F64.fin 200)).s.maxAssetQuote = F64.fin 200 ∧
    (PreUpdate feedDown (F64.fin 500) (F64.fin 200)).s.maxAssetBase ≠ feedDown.maxAssetBase ∧
    (PreUpdate feedDown (F64.fin 500) (F64.fin 200)).s.maxAssetQuote ≠
      feedDown.maxAssetQuote := by
  refine ⟨rfl, rfl, rfl, rfl, rfl, rfl, ?_, ?_⟩
  · show F64.fin 500 ≠ F64.fin 1000
    intro h
    have := F64.fin.inj h
    norm_num at this
  · show F64.fin 200 ≠ F64.fin 0
    intro h
    have := F64.fin.inj h
    norm_num at this

/-- C7, amended. If `GetCenterPrice` fails, `PreUpdate(maxBase, maxQuote)` returns the
feed error, calls the price feed only (the level provider is not invoked) and leaves
`currentLevels`, the tolerances and the division flag unchanged; the stored
`maxAssetBase` and `maxAssetQuote` are the new arguments, written before the feed is
asked, and `centerPrice` is the value the feed returned with its error. -/
theorem C7_feed_failure {F : Type} (s : SellSideStrategy F) (maxBase maxQuote : F)
    (e : Error)
    (hfail : (s.pf.GetCenterPrice ()).2 = some e) :
    (PreUpdate s maxBase maxQuote).e = some e ∧
    (PreUpdate s maxBase maxQuote).calls = [Call.GetCenterPrice] ∧
    (∀ p, Call.GetLevels p ∉ (PreUpdate s maxBase maxQuote).calls) ∧
    (PreUpdate s maxBase maxQuote).s.currentLevels = s.currentLevels ∧
    (PreUpdate s maxBase maxQuote).s.priceTolerance = s.priceTolerance ∧
    (PreUpdate s maxBase maxQuote).s.amountTolerance = s.amountTolerance ∧
    (PreUpdate s maxBase maxQuote).s.divideAmountByPrice = s.divideAmountByPrice ∧
    (PreUpdate s maxBase maxQuote).s.maxAssetBase = maxBase ∧
    (PreUpdate s maxBase maxQuote).s.maxAssetQuote = maxQuote ∧
    (PreUpdate s maxBase maxQuote).s.centerPrice = (s.pf.GetCenterPrice ()).1 := by
  simp [PreUpdate, hfail]

/-- C7, amended, on the scenario with a failing feed: the ladder is kept. -/
theorem C7_feed_failure_witness :
    (PreUpdate feedDown (F64.fin 500) (F64.fin 200)).e = some "feed unavailable" ∧
    (PreUpdate feedDown (F64.fin 500) (F64.fin 200)).calls = [Call.GetCenterPrice] ∧
    (PreUpdate feedDown (F64.fin 500) (F64.fin 200)).s.currentLevels =
      [⟨p1_02, F64.fin 100⟩, ⟨p1_05, F64.fin 150⟩] :=
  have h := C7_feed_failure feedDown (F64.fin 500) (F64.fin 200) "feed unavailable" rfl
  ⟨h.1, h.2.1, h.2.2.2.1⟩

/-- C8. `PreUpdate(maxBase, maxQuote)` returns no error exactly when `GetCenterPrice`
succeeds with a price `p` and `GetLevels(p)` succeeds; the receiver then holds the
passed `maxBase` and `maxQuote`, the ladder `GetLevels` returned for `p` and `p` as
center price.  If `GetCenterPrice` succeeds and `GetLevels(p)` fails, `PreUpdate`
returns the level provider's error. -/
theorem C8_preupdate_success {F : Type} (s : SellSideStrategy F)
    (maxBase maxQuote : F) :
    ((PreUpdate s maxBase maxQuote).e = none ↔
      (s.pf.GetCenterPrice ()).2 = none ∧
      (s.levelsProvider.GetLevels (s.pf.GetCenterPrice ()).1).2 = none) ∧
    ((PreUpdate s maxBase maxQuote).e = none →
      (PreUpdate s maxBase maxQuote).s.maxAssetBase = maxBase ∧
      (PreUpdate s maxBase maxQuote).s.maxAssetQuote = maxQuote ∧
      (PreUpdate s maxBase maxQuote).s.currentLevels =
        (s.levelsProvider.GetLevels (s.pf.GetCenterPrice ()).1).1 ∧
      (PreUpdate s maxBase maxQuote).s.centerPrice = (s.pf.GetCenterPrice ()).1 ∧
      (PreUpdate s maxBase maxQuote).calls =
        [Call.GetCenterPrice, Call.GetLevels (s.pf.GetCenterPrice ()).1]) ∧
    ((s.pf.GetCenterPrice ()).2 = none →
      ∀ e, (s.levelsProvider.GetLevels (s.pf.GetCenterPrice ()).1).2 = some e →
        (PreUpdate s maxBase maxQuote).e = some e) := by
  cases hf : (s.pf.GetCenterPrice ()).2 with
  | some e => simp [PreUpdate, hf]
  | none =>
    cases hg : (s.levelsProvider.GetLevels (s.pf.GetCenterPrice ()).1).2 with
    | some e => simp [PreUpdate, hf, hg]
    | none => simp [PreUpdate, hf, hg]

/-- C8 on the scenario, whose feed and level provider succeed, and on the scenario
with a failing level provider. -/
theorem C8_preupdate_success_witness :
    ((PreUpdate scenario (F64.fin 500) (F64.fin 200)).s.maxAssetBase = F64.fin 500 ∧
      (PreUpdate scenario (F64.fin 500) (F64.fin 200)).s.maxAssetQuote = F64.fin 200 ∧
      (PreUpdate scenario (F64.fin 500) (F64.fin 200)).s.currentLevels =
        [⟨p1_02, F64.fin 100⟩, ⟨p1_05, F64.fin 150⟩]) ∧
    (PreUpdate levelsDown (F64.fin 500) (F64.fin 200)).e = some "levels unavailable" :=
  have h := (C8_preupdate_success scenario (F64.fin 500) (F64.fin 200)).2.1
    ((C8_preupdate_success scenario (F64.fin 500) (F64.fin 200)).1.mpr ⟨rfl, rfl⟩)
  ⟨⟨h.1, h.2.1, h.2.2.1⟩,
   (C8_preupdate_success levelsDown (F64.fin 500) (F64.fin 200)).2.2 rfl
     "levels unavailable" rfl⟩

/-- C9. When `UpdateWithOps` succeeds on a ladder of length `D`, the returned list is
the list of the decisions that are not `nil` at the positions `D-1, D-2, ..., 0`, in
that order; a position contributes the one decision of `updateSellLevel` or nothing,
and the list has at most `D` entries. -/
theorem C9_deepest_first {F : Type} [GoFloat F] (FromString : F → Except Error ℚ)
    (s : SellSideStrategy F) (offers : List (Offer F))
    (hok : (UpdateWithOps FromString s offers).e = none) :
    (UpdateWithOps FromString s offers).ops =
      (List.range s.currentLevels.length).reverse.filterMap (levelDecision s offers) ∧
    (∀ i (h : i < s.currentLevels.length),
      levelDecision s offers i = updateSellLevel s offers i h) ∧
    (UpdateWithOps FromString s offers).ops.length ≤ s.currentLevels.length := by
  have hops := UpdateWithOps_ops FromString s offers hok
  refine ⟨?_, levelDecision_eq s offers, ?_⟩
  · rw [hops, decisions, List.range_eq_range', Nat.sub_zero]
  · rw [hops]
    exact length_decisions_le s offers _

/-- C9 on the scenario ladder without live offers: the `Create` of position 1 comes
before the `Create` of position 0. -/
theorem C9_deepest_first_witness :
    (UpdateWithOps exactParse scenario []).ops =
      (List.range scenario.currentLevels.length).reverse.filterMap
        (levelDecision scenario []) ∧
    (List.range scenario.currentLevels.length).reverse.filterMap (levelDecision scenario []) =
      [MutationIntent.Create p1_05 (F64.fin 150), MutationIntent.Create p1_02 (F64.fin 100)] := by
  refine ⟨(C9_deepest_first exactParse scenario [] (UpdateWithOps_exactParse _ _)).1, ?_⟩
  have h1 : levelDecision scenario [] 1 =
      some (MutationIntent.Create p1_05 (F64.fin 150)) := by
    rw [levelDecision_create scenario [] 1 ⟨p1_05, F64.fin 150⟩ rfl (by simp)]
    simp only [scenario, MakeSellSideStrategy, Bool.false_eq_true, if_false]
    rw [F64.min_fin]
    norm_num
  have h0 : levelDecision scenario [] 0 =
      some (MutationIntent.Create p1_02 (F64.fin 100)) := by
    rw [levelDecision_create scenario [] 0 ⟨p1_02, F64.fin 100⟩ rfl (by simp)]
    simp only [scenario, MakeSellSideStrategy, Bool.false_eq_true, if_false]
    rw [F64.min_fin]
    norm_num
  have hlen : scenario.currentLevels.length = 2 := rfl
  rw [hlen]
  simp [List.range_succ, List.filterMap_cons, h1, h0]

/-- C10. With the ladder `[(1.02, 100), (1.05, 150)]`, `maxAssetBase = 1000`, both
tolerances `0.01`, the division off and the live offers `[(1.021, 99)]`, all in
binary64, `UpdateWithOps` returns the one operation `Create(1.05, 150)`, the top price
1.05 and no error, for every price parse that reads 1.05 from the price `1.05`;
position 0 takes no decision: its price `1.021` is neither above the computed
`highestPrice` nor below the computed `lowestPrice`, and its amount `99` is the
computed `minAmount`. -/
theorem C10_scenario (FromString : F64 → Except Error ℚ)
    (hp : FromString p1_05 = .ok 1.05) :
    UpdateWithOps FromString scenario liveOne =
      ⟨[MutationIntent.Create p1_05 (F64.fin 150)], some 1.05, none⟩ ∧
    updateSellLevel scenario liveOne 0 (by decide) = none ∧
    updateSellLevel scenario liveOne 1 (by decide) =
      some (MutationIntent.Create p1_05 (F64.fin 150)) ∧
    (¬ p1_021 > p1_02 + p1_02 * scenario.priceTolerance ∧
      ¬ p1_021 < p1_02 - p1_02 * scenario.priceTolerance) ∧
    F64.fin 100 - F64.fin 100 * scenario.amountTolerance = F64.fin 99 := by
  refine ⟨scenario_liveOne FromString hp, ?_, ?_, ⟨?_, ?_⟩, ?_⟩
  · rw [← levelDecision_eq]
    exact scenario_level0
  · rw [← levelDecision_eq]
    exact scenario_level1
  · show ¬ (p1_02 + p1_02 * p0_01 < p1_021)
    rw [scenario_priceMargin, scenario_highestPrice, p1_021_eq, F64.fin_lt_fin]
    norm_num
  · show ¬ (p1_021 < p1_02 - p1_02 * p0_01)
    rw [scenario_priceMargin, scenario_lowestPrice, p1_021_eq, F64.fin_lt_fin]
    norm_num
  · show F64.fin 100 - F64.fin 100 * p0_01 = F64.fin 99
    rw [hundred_margin, hundred_minAmount]

/-- C10 with the parse at 7 fractional digits. -/
theorem C10_scenario_witness :
    UpdateWithOps parse7 scenario liveOne =
      ⟨[MutationIntent.Create p1_05 (F64.fin 150)], some 1.05, none⟩ :=
  (C10_scenario parse7 parse7_p1_05).1

/-- C11. `PostUpdate` performs no work: it returns no error and the receiver is left
as it was, in every field. -/
theorem C11_postupdate_noop {F : Type} (s : SellSideStrategy F) :
    (PostUpdate s).2 = none ∧ (PostUpdate s).1 = s ∧
    (PostUpdate s).1.currentLevels = s.currentLevels ∧
    (PostUpdate s).1.maxAssetBase = s.maxAssetBase ∧
    (PostUpdate s).1.maxAssetQuote = s.maxAssetQuote ∧
    (PostUpdate s).1.centerPrice = s.centerPrice ∧
    (PostUpdate s).1.priceTolerance = s.priceTolerance ∧
    (PostUpdate s).1.amountTolerance = s.amountTolerance :=
  ⟨rfl, rfl, rfl, rfl, rfl, rfl, rfl, rfl⟩

theorem totalAmount_le (mb : ℚ) (l : List (MutationIntent F64))
    (h : ∀ op ∈ l, ∃ q, op.Amount = some (F64.fin q) ∧ q ≤ mb) :
    totalAmount l ≤ (l.length : ℚ) * mb := by
  induction l with
  | nil => simp [totalAmount]
  | cons op rest ih =>
    obtain ⟨q, hq, hle⟩ := h op (List.mem_cons_self _ _)
    have hrest := ih (fun op1 hmem => h op1 (List.mem_cons_of_mem _ hmem))
    have hcons : totalAmount (op :: rest) = q + totalAmount rest := by
      simp [totalAmount, hq, F64.toRat]
    rw [hcons, List.length_cons]
    push_cast
    linarith

theorem cappedScenario_run :
    UpdateWithOps exactParse cappedScenario [] =
      ⟨[MutationIntent.Create p1_05 (F64.fin 100), MutationIntent.Create p1_02 (F64.fin 100)],
        some p1_02.toRat, none⟩ := by
  have h1 : levelDecision cappedScenario [] 1 =
      some (MutationIntent.Create p1_05 (F64.fin 100)) := by
    rw [levelDecision_create cappedScenario [] 1 ⟨p1_05, F64.fin 150⟩ rfl (by simp)]
    simp only [cappedScenario, scenario, MakeSellSideStrategy, Bool.false_eq_true, if_false]
    rw [F64.min_fin]
    norm_num
  have h0 : levelDecision cappedScenario [] 0 =
      some (MutationIntent.Create p1_02 (F64.fin 100)) := by
    rw [levelDecision_create cappedScenario [] 0 ⟨p1_02, F64.fin 100⟩ rfl (by simp)]
    simp only [cappedScenario, scenario, MakeSellSideStrategy, Bool.false_eq_true, if_false]
    rw [F64.min_fin]
    norm_num
  have hlt : p1_02.toRat < p1_05.toRat := by
    rw [p1_02_eq, p1_05_eq]
    simp only [F64.toRat]
    norm_num
  unfold UpdateWithOps
  have hlen : cappedScenario.currentLevels.length = 1 + 1 := rfl
  simp only [hlen]
  rw [updateLoop_succ_ok exactParse cappedScenario [] 1 _ [] none _ p1_05.toRat h1 rfl,
    updateLoop_succ_ok exactParse cappedScenario [] 0 _ _ _ _ p1_02.toRat h0 rfl]
  simp [updateLoop, minOffer, hlt]

/-- C14, as the claim states it, fails: with the base cap 100, the ladder
`[(1.02, 100), (1.05, 150)]` of non-negative amounts and no live offer,
`UpdateWithOps` succeeds with two `Create` of amount 100 each, 200 in total. -/
theorem C14_sum_exceeds_cap :
    (∀ lvl ∈ cappedScenario.currentLevels, F64.fin 0 ≤ lvl.targetAmount) ∧
    cappedScenario.maxAssetBase = F64.fin 100 ∧
    UpdateWithOps exactParse cappedScenario [] =
      ⟨[MutationIntent.Create p1_05 (F64.fin 100), MutationIntent.Create p1_02 (F64.fin 100)],
        some p1_02.toRat, none⟩ ∧
    totalAmount (UpdateWithOps exactParse cappedScenario []).ops = 200 ∧
    ¬ totalAmount (UpdateWithOps exactParse cappedScenario []).ops ≤ 100 := by
  refine ⟨?_, rfl, cappedScenario_run, ?_, ?_⟩
  · intro lvl hmem
    simp only [cappedScenario, scenario, MakeSellSideStrategy, List.mem_cons,
      List.mem_singleton, List.not_mem_nil, or_false] at hmem
    rcases hmem with rfl | rfl
    · rw [F64.fin_le_fin]
      norm_num
    · rw [F64.fin_le_fin]
      norm_num
  · rw [cappedScenario_run]
    simp only [totalAmount, List.map, MutationIntent.Amount, F64.toRat, List.sum_cons,
      List.sum_nil]
    norm_num
  · rw [cappedScenario_run]
    simp only [totalAmount, List.map, MutationIntent.Amount, F64.toRat, List.sum_cons,
      List.sum_nil]
    norm_num

/-- C14, amended.  `maxAssetBase` bounds every operation on its own.  For a base cap
that is a number and a ladder whose amounts are numbers and whose target prices, when
the division mode is on, are finite and not zero, each `Create` and `Modify` returned
by one `UpdateWithOps` call has an amount of at most `maxAssetBase`; when the returned
amounts are finite, the amounts of the `n` operations returned sum to at most
`n * maxAssetBase`. -/
theorem C14_each_amount_capped (FromString : F64 → Except Error ℚ)
    (s : SellSideStrategy F64) (offers : List (Offer F64))
    (hmb : s.maxAssetBase ≠ F64.nan)
    (hlv : ∀ lvl ∈ s.currentLevels, lvl.targetAmount ≠ F64.nan ∧
      (s.divideAmountByPrice = true → ∃ q : ℚ, q ≠ 0 ∧ lvl.targetPrice = F64.fin q)) :
    (∀ op ∈ (UpdateWithOps FromString s offers).ops,
      ∃ a, op.Amount = some a ∧ a ≤ s.maxAssetBase) ∧
    (∀ mb : ℚ, s.maxAssetBase = F64.fin mb →
      (∀ op ∈ (UpdateWithOps FromString s offers).ops, ∃ q, op.Amount = some (F64.fin q)) →
      totalAmount (UpdateWithOps FromString s offers).ops ≤
        ((UpdateWithOps FromString s offers).ops.length : ℚ) * mb) := by
  have hall : ∀ op ∈ (UpdateWithOps FromString s offers).ops,
      ∃ a, op.Amount = some a ∧ a ≤ s.maxAssetBase := by
    intro op hmem
    cases he : (UpdateWithOps FromString s offers).e with
    | none =>
      rw [UpdateWithOps_ops FromString s offers he] at hmem
      obtain ⟨i, hi, hd⟩ := (mem_decisions s offers _ op).mp hmem
      have hl : s.currentLevels[i]? = some s.currentLevels[i] := List.getElem?_eq_getElem hi
      obtain ⟨hta, hprice⟩ := hlv s.currentLevels[i] (List.getElem_mem hi)
      refine ⟨_, levelDecision_amount s offers i _ hl op hd, ?_⟩
      rw [F64.Min_def]
      apply F64.min_le_right _ _ _ hmb
      by_cases hdiv : s.divideAmountByPrice = true
      · obtain ⟨q, hq, htp⟩ := hprice hdiv
        rw [if_pos hdiv, htp]
        exact F64.div_ne_nan _ q hta hq
      · rw [if_neg hdiv]
        exact hta
    | some e =>
      have hr : UpdateWithOps FromString s offers = ⟨[], none, some e⟩ :=
        (updateLoop_error FromString s offers s.currentLevels.length (le_refl _)
          [] none e he).1
      rw [hr] at hmem
      cases hmem
  refine ⟨hall, ?_⟩
  intro mb hmbq hfin
  apply totalAmount_le
  intro op hmem
  obtain ⟨q, hq⟩ := hfin op hmem
  obtain ⟨a, ha, hle⟩ := hall op hmem
  rw [hq] at ha
  cases ha
  rw [hmbq, F64.fin_le_fin] at hle
  exact ⟨q, hq, hle⟩

/-- C14, amended, on the capped scenario: the `Create` of position 1, of level amount
150, is returned with an amount at the cap. -/
theorem C14_each_amount_capped_witness :
    ∃ a, (MutationIntent.Create p1_05 (F64.fin 100)).Amount = some a ∧
      a ≤ cappedScenario.maxAssetBase :=
  (C14_each_amount_capped exactParse cappedScenario []
    (by simp [cappedScenario])
    (by
      intro lvl hmem
      simp only [cappedScenario, scenario, MakeSellSideStrategy, List.mem_cons,
        List.mem_singleton, List.not_mem_nil, or_false] at hmem
      rcases hmem with rfl | rfl <;>
        simp [cappedScenario, scenario, MakeSellSideStrategy])).1
    (MutationIntent.Create p1_05 (F64.fin 100))
    (by rw [cappedScenario_run]; simp)

/-- C15. If both tolerances are non-negative, every target price and every clamped
target amount is a non-negative binary64 value, no target price is zero when the
division mode is on, and the live offers are as many as the levels, each with the
target price and the clamped target amount of its position, then `UpdateWithOps`
returns an empty list, no top price and no error. -/
theorem C15_fixed_point (FromString : F64 → Except Error ℚ) (s : SellSideStrategy F64)
    (offers : List (Offer F64))
    (hpt : F64.fin 0 ≤ s.priceTolerance) (hat : F64.fin 0 ≤ s.amountTolerance)
    (hlen : offers.length = s.currentLevels.length)
    (hfix : ∀ (i : Nat) (lvl : Level F64) (o : Offer F64),
      s.currentLevels[i]? = some lvl → offers[i]? = some o →
      (F64.fin 0 ≤ lvl.targetPrice ∧ lvl.targetPrice.IsDouble ∧
        (s.divideAmountByPrice = true → lvl.targetPrice ≠ F64.fin 0)) ∧
      (F64.fin 0 ≤ GoFloat.Min (if s.divideAmountByPrice then
            lvl.targetAmount / lvl.targetPrice else lvl.targetAmount) s.maxAssetBase ∧
        (GoFloat.Min (if s.divideAmountByPrice then
            lvl.targetAmount / lvl.targetPrice else lvl.targetAmount)
          s.maxAssetBase : F64).IsDouble) ∧
      o.price = lvl.targetPrice ∧
      o.amount = GoFloat.Min (if s.divideAmountByPrice then
            lvl.targetAmount / lvl.targetPrice else lvl.targetAmount) s.maxAssetBase) :
    UpdateWithOps FromString s offers = ⟨[], none, none⟩ := by
  unfold UpdateWithOps
  apply updateLoop_all_none
  intro i hi
  have hl : s.currentLevels[i]? = some s.currentLevels[i] := List.getElem?_eq_getElem hi
  have ho : offers[i]? = some offers[i] := List.getElem?_eq_getElem (by omega)
  obtain ⟨⟨hp0, hpd, -⟩, ⟨ha0, had⟩, hprice, hamount⟩ := hfix i _ _ hl ho
  rw [levelDecision_live s offers i _ _ hl ho _ rfl, if_neg]
  rw [hprice, hamount]
  have h1 := F64.in_own_band _ _ hp0 hpt hpd
  have h2 := F64.in_own_band _ _ ha0 hat had
  rintro ((h | h) | (h | h))
  · exact h1.1 h
  · exact h1.2 h
  · exact h2.2 h
  · exact h2.1 h

/-- C15 on the scenario with live offers equal to its ladder. -/
theorem C15_fixed_point_witness :
    UpdateWithOps exactParse scenario liveLadder = ⟨[], none, none⟩ := by
  have hmin100 : (GoFloat.Min (F64.fin 100) (F64.fin 1000) : F64) = F64.fin 100 := by
    rw [F64.min_fin]
    norm_num
  have hmin150 : (GoFloat.Min (F64.fin 150) (F64.fin 1000) : F64) = F64.fin 150 := by
    rw [F64.min_fin]
    norm_num
  have htol : F64.fin 0 ≤ p0_01 := by
    rw [p0_01_eq, F64.fin_le_fin]
    norm_num
  refine C15_fixed_point exactParse scenario liveLadder htol htol rfl ?_
  intro i lvl o hl ho
  have hi : i < 2 := (List.getElem?_eq_some.mp hl).1
  interval_cases i
  · have hlvl : lvl = ⟨p1_02, F64.fin 100⟩ := (Option.some.inj hl).symm
    have hoff : o = ⟨1, p1_02, F64.fin 100⟩ := (Option.some.inj ho).symm
    subst hlvl
    subst hoff
    simp only [scenario, MakeSellSideStrategy, Bool.false_eq_true, if_false]
    rw [hmin100]
    refine ⟨⟨?_, ?_, fun h => absurd h (by decide)⟩, ⟨?_, isDouble_100⟩, trivial, rfl⟩
    · rw [p1_02_eq, F64.fin_le_fin]
      norm_num
    · rw [p1_02_eq]
      exact isDouble_p1_02_val
    · rw [F64.fin_le_fin]
      norm_num
  · have hlvl : lvl = ⟨p1_05, F64.fin 150⟩ := (Option.some.inj hl).symm
    have hoff : o = ⟨2, p1_05, F64.fin 150⟩ := (Option.some.inj ho).symm
    subst hlvl
    subst hoff
    simp only [scenario, MakeSellSideStrategy, Bool.false_eq_true, if_false]
    rw [hmin150]
    refine ⟨⟨?_, ?_, fun h => absurd h (by decide)⟩, ⟨?_, isDouble_150⟩, trivial, rfl⟩
    · rw [p1_05_eq, F64.fin_le_fin]
      norm_num
    · rw [p1_05_eq]
      exact isDouble_p1_05_val
    · rw [F64.fin_le_fin]
      norm_num

/-- C16. `UpdateWithOps` returns the same three values on a live-offer list and on
the list trimmed by `PruneExistingOffers`: the offers past the ladder are not read. -/
theorem C16_ignores_excess_offers {F : Type} [GoFloat F]
    (FromString : F → Except Error ℚ) (s : SellSideStrategy F) (offers : List (Offer F)) :
    UpdateWithOps FromString s offers =
      UpdateWithOps FromString s (PruneExistingOffers s offers).2 ∧
    (PruneExistingOffers s offers).2 =
      offers.take (min offers.length s.currentLevels.length) := by
  have htrim : (PruneExistingOffers s offers).2 =
      if offers.length > s.currentLevels.length then offers.take s.currentLevels.length
      else offers := rfl
  constructor
  · apply UpdateWithOps_congr FromString s s offers _ rfl
    intro i hi
    have hl : s.currentLevels[i]? = some s.currentLevels[i] := List.getElem?_eq_getElem hi
    rw [levelDecision_positional s offers i _ hl,
      levelDecision_positional s (PruneExistingOffers s offers).2 i _ hl, htrim]
    by_cases hgt : offers.length > s.currentLevels.length
    · rw [if_pos hgt, List.getElem?_take_of_lt hi]
    · rw [if_neg hgt]
  · rw [htrim]
    by_cases hgt : offers.length > s.currentLevels.length
    · rw [if_pos hgt, min_eq_right (by omega)]
    · rw [if_neg hgt, min_eq_left (by omega), List.take_length]

/-- C16 on the scenario with three live offers: the third one is not read. -/
theorem C16_ignores_excess_offers_witness :
    UpdateWithOps exactParse scenario liveThree =
      UpdateWithOps exactParse scenario (PruneExistingOffers scenario liveThree).2 :=
  (C16_ignores_excess_offers exactParse scenario liveThree).1

/-- C17. Two reconcilers that agree on `currentLevels`, `maxAssetBase`, the two
tolerances and the division flag return the same results from `PruneExistingOffers`
and from `UpdateWithOps` on every live-offer list, whatever their `maxAssetQuote`
and `centerPrice` are. -/
theorem C17_quote_cap_irrelevant {F : Type} [GoFloat F]
    (FromString : F → Except Error ℚ) (s1 s2 : SellSideStrategy F) (offers : List (Offer F))
    (hlv : s1.currentLevels = s2.currentLevels)
    (hbase : s1.maxAssetBase = s2.maxAssetBase)
    (hpt : s1.priceTolerance = s2.priceTolerance)
    (hat : s1.amountTolerance = s2.amountTolerance)
    (hdiv : s1.divideAmountByPrice = s2.divideAmountByPrice) :
    PruneExistingOffers s1 offers = PruneExistingOffers s2 offers ∧
    UpdateWithOps FromString s1 offers = UpdateWithOps FromString s2 offers := by
  constructor
  · simp [PruneExistingOffers, hlv]
  · apply UpdateWithOps_congr FromString s1 s2 offers offers (by rw [hlv])
    intro i hi
    have hl1 : s1.currentLevels[i]? = some s1.currentLevels[i] :=
      List.getElem?_eq_getElem hi
    have hl2 : s2.currentLevels[i]? = some s1.currentLevels[i] := by
      rw [← hlv]
      exact hl1
    rw [levelDecision_positional s1 offers i _ hl1,
      levelDecision_positional s2 offers i _ hl2, hbase, hpt, hat, hdiv]

/-- C17 on the scenario and on the scenario with the quote cap 77 and the center
price 3. -/
theorem C17_quote_cap_irrelevant_witness :
    (scenario.maxAssetQuote ≠ otherQuote.maxAssetQuote ∧
      scenario.centerPrice ≠ otherQuote.centerPrice) ∧
    PruneExistingOffers scenario liveThree = PruneExistingOffers otherQuote liveThree ∧
    UpdateWithOps exactParse scenario liveThree =
      UpdateWithOps exactParse otherQuote liveThree :=
  ⟨⟨by
      show F64.fin 0 ≠ F64.fin 77
      intro h
      have := F64.fin.inj h
      norm_num at this,
    by
      show F64.fin 0 ≠ F64.fin 3
      intro h
      have := F64.fin.inj h
      norm_num at this⟩,
   C17_quote_cap_irrelevant exactParse scenario otherQuote liveThree rfl rfl rfl rfl rfl⟩

end SideStrategy
